import Mathlib

/-!
# gotraceui: command palette, machine timelines, histogram

A shallow embedding of `theme/cmdpalette.go` (command filtering, the palette's
`filtered`/`active` state and its keyboard navigation, the provider that joins
providers), of `cmd/gotraceui/machine.go` (the machine tracks' labels, tooltips
and menus, the machine tooltip's statistics, the machine timeline) and of
`cmd/gotraceui/histogram.go` (the histogram's Future and its settings),
followed by the properties proved about them.

Conventions of the embedding:

* a Go `string` is the list of its runes (`GoString`); the strings handled here
  are valid UTF-8, for which byte-wise and rune-wise substring search agree;
* a Go `int` is a Lean `Int`; the palette only ever holds indices and `-1`, far
  from the 64-bit bounds;
* durations and timestamps are Go `int64`s: their arithmetic wraps, through
  `wrapInt64`;
* a Go `float32` is the type `F32`, with round-to-nearest-even;
* a run-time panic is the value `none` of an `Option`.
-/

namespace Gotraceui

/-! ## Go strings and the `strings` / `unicode` functions used by `Filter` -/

/-- A Go string, as the list of its runes. -/
abbrev GoString := List Char

/-- Go's `unicode.IsSpace`: in Latin-1 the runes tab, LF, VT, FF, CR, space,
U+0085 and U+00A0; above Latin-1 the runes with the White_Space property. -/
def unicodeIsSpace (r : Char) : Bool :=
  let n := r.toNat
  if n ≤ 0xFF then
    n == 0x09 || n == 0x0A || n == 0x0B || n == 0x0C || n == 0x0D || n == 0x20 ||
      n == 0x85 || n == 0xA0
  else
    n == 0x1680 || (0x2000 ≤ n && n ≤ 0x200A) || n == 0x2028 || n == 0x2029 ||
      n == 0x202F || n == 0x205F || n == 0x3000

/-- Go's `unicode.ToLower`: ASCII runes are handled inline (`A`..`Z` are moved
by `'a' - 'A'`), every other rune goes through the Unicode case tables, which
are the parameter `caseTable`. -/
def unicodeToLower (caseTable : Char → Char) (r : Char) : Char :=
  if r.toNat ≤ 0x7F then
    if 'A'.toNat ≤ r.toNat ∧ r.toNat ≤ 'Z'.toNat then Char.ofNat (r.toNat + ('a'.toNat - 'A'.toNat))
    else r
  else caseTable r

/-- Go's `strings.ToLower`: every rune mapped to lower case. -/
def stringsToLower (caseTable : Char → Char) (s : GoString) : GoString :=
  s.map (unicodeToLower caseTable)

/-- Whether `s` begins with `p` (Go's `strings.HasPrefix`). -/
def stringsHasPrefix : GoString → GoString → Bool
  | _, [] => true
  | [], _ :: _ => false
  | c :: s, d :: p => c == d && stringsHasPrefix s p

/-- Go's `strings.Contains s substr`: `substr` occurs at some offset of `s`. -/
def stringsContains : GoString → GoString → Bool
  | [], substr => stringsHasPrefix [] substr
  | c :: s, substr => stringsHasPrefix (c :: s) substr || stringsContains s substr

/-- The scanning loop of Go's `strings.Fields`: `cur` is the field being read,
most recent rune first. A white space rune closes the field being read (if any),
any other rune extends it. -/
def stringsFieldsAux : GoString → GoString → List GoString
  | [], cur => if cur.isEmpty then [] else [cur.reverse]
  | r :: s, cur =>
    if unicodeIsSpace r then
      if cur.isEmpty then stringsFieldsAux s [] else cur.reverse :: stringsFieldsAux s []
    else stringsFieldsAux s (r :: cur)

/-- Go's `strings.Fields`: the maximal runs of non-white-space runes of `s`, in
order; empty when `s` is empty or all white space. -/
def stringsFields (s : GoString) : List GoString :=
  stringsFieldsAux s []

/-! ## Commands -/

/-- The `Command` interface, without its rendering method `Layout`: a command
answers whether it matches a query and yields the action it stands for. -/
structure Command (A : Type) where
  /-- The method `Filter(input string) bool`. -/
  Filter : GoString → Bool
  /-- The result of the method `Link() Action`. -/
  Link : A

/-- The struct `NormalCommand` (its `Color` only matters to rendering). -/
structure NormalCommand (A : Type) where
  PrimaryLabel : GoString
  SecondaryLabel : GoString
  Category : GoString
  Shortcut : GoString
  Aliases : List GoString
  Fn : Unit → A

namespace NormalCommand

variable {A : Type}

/-- The method `NormalCommand.Link`. -/
def Link (cmd : NormalCommand A) : A :=
  cmd.Fn ()

/-- The inner loop of `Filter` over `cmd.Aliases`: `any` becomes true, and the
loop is left, at the first alias whose lower-cased text contains `lf`. -/
def anyAlias (caseTable : Char → Char) (lf : GoString) : List GoString → Bool
  | [] => false
  | al :: rest =>
    if stringsContains (stringsToLower caseTable al) lf then true
    else anyAlias caseTable lf rest

/-- The outer loop of `Filter` over the fields of the input: the first field
found neither in the three labels nor in an alias returns false. -/
def filterLoop (caseTable : Char → Char) (cmd : NormalCommand A) : List GoString → Bool
  | [] => true
  | f :: fs =>
    let lf := stringsToLower caseTable f
    if !(stringsContains (stringsToLower caseTable cmd.PrimaryLabel) lf ||
        stringsContains (stringsToLower caseTable cmd.SecondaryLabel) lf ||
        stringsContains (stringsToLower caseTable cmd.Category) lf) then
      if !(anyAlias caseTable lf cmd.Aliases) then false
      else filterLoop caseTable cmd fs
    else filterLoop caseTable cmd fs

/-- The method `NormalCommand.Filter`. -/
def Filter (caseTable : Char → Char) (cmd : NormalCommand A) (input : GoString) : Bool :=
  filterLoop caseTable cmd (stringsFields input)

/-- A `NormalCommand` seen through the `Command` interface. -/
def toCommand (caseTable : Char → Char) (cmd : NormalCommand A) : Command A where
  Filter := cmd.Filter caseTable
  Link := cmd.Link

end NormalCommand

/-- A command that has only a primary label, as in the palette scenarios. -/
def labelled (label : String) : NormalCommand Unit where
  PrimaryLabel := label.toList
  SecondaryLabel := []
  Category := []
  Shortcut := []
  Aliases := []
  Fn := fun _ => ()

/-! ## Slices of `int` -/

/-- A Go `[]int`: the backing array from the slice's first element on (its
length is the capacity) and the slice's length. The nil slice has both empty. -/
structure IntSlice where
  backing : List Int
  len : Nat
  len_le : len ≤ backing.length

namespace IntSlice

/-- The built-in `cap(s)`. -/
def cap (s : IntSlice) : Nat :=
  s.backing.length

/-- The elements of the slice, `s[0]` to `s[len(s)-1]`. -/
def toList (s : IntSlice) : List Int :=
  s.backing.take s.len

/-- The nil slice. -/
def nil : IntSlice :=
  ⟨[], 0, Nat.le_refl _⟩

/-- The built-in `make([]int, n)`: `n` zeroes, capacity `n`. -/
def make (n : Nat) : IntSlice :=
  ⟨List.replicate n 0, n, by simp⟩

/-- The slice expression `s[:n]`, which panics when `n` exceeds the capacity. -/
def reslice (s : IntSlice) (n : Nat) : Option IntSlice :=
  if h : n ≤ s.backing.length then some ⟨s.backing, n, h⟩ else none

/-- The index expression `s[i]`, which panics outside `[0, len(s))`. -/
def get (s : IntSlice) (i : Int) : Option Int :=
  if 0 ≤ i ∧ i < s.len then s.backing[i.toNat]? else none

/-- The assignment `s[i] = v`, which panics when `i` is not below `len(s)`. -/
def set (s : IntSlice) (i : Nat) (v : Int) : Option IntSlice :=
  if i < s.len then some ⟨s.backing.set i v, s.len, by simpa using s.len_le⟩ else none

/-- The built-in `append(s, v)`. With spare capacity the element is written
in place; otherwise the elements move to a new array, whose spare capacity is
the runtime's choice, `grow (cap s)`. -/
def append (grow : Nat → Nat) (s : IntSlice) (v : Int) : IntSlice :=
  if h : s.len < s.backing.length then
    ⟨s.backing.set s.len v, s.len + 1, by simpa using h⟩
  else
    ⟨s.backing.take s.len ++ v :: List.replicate (grow s.backing.length) 0, s.len + 1, by
      simp [Nat.min_eq_left s.len_le]⟩

end IntSlice

/-! ## Command providers -/

/-- The interface `CommandProvider`. `At` is `none` where the implementation
panics; `Len` is a length, so a natural number. -/
structure CommandProvider (A : Type) where
  At : Int → Option (Command A)
  Len : Nat

/-- A provider answers `At` on all of `[0, Len())`. -/
def CommandProvider.WellFormed {A : Type} (p : CommandProvider A) : Prop :=
  ∀ i : Nat, i < p.Len → (p.At i).isSome = true

/-- The type `CommandSlice`. -/
def CommandSlice (A : Type) : Type :=
  List (Command A)

namespace CommandSlice

variable {A : Type}

/-- The method `CommandSlice.Len`. -/
def Len (cs : CommandSlice A) : Nat :=
  List.length cs

/-- The method `CommandSlice.At`: `cs[idx]`, a panic outside the slice. -/
def At (cs : CommandSlice A) (idx : Int) : Option (Command A) :=
  if 0 ≤ idx then List.get? cs idx.toNat else none

/-- A `CommandSlice` seen through the `CommandProvider` interface. -/
def toProvider (cs : CommandSlice A) : CommandProvider A where
  At := cs.At
  Len := cs.Len

end CommandSlice

/-! ## The palette -/

/-- The fields of the list's `Position` that the palette reads or writes. -/
structure ListPosition where
  First : Int
  Offset : Int
  OffsetLast : Int
  Count : Int
  ForceEndAligned : Bool

/-- The struct `CommandPalette`, without what only serves rendering and pointer
input (`Prompt`, `tags`, `gestures`). `editorText` is `pl.editor.Text()`, `list`
is `pl.list.Position`, and `cmds` is `none` for the nil interface. -/
structure CommandPalette (A : Type) where
  editorText : GoString
  list : ListPosition
  filtered : IntSlice
  active : Int
  cmds : Option (CommandProvider A)

/-- The state of a key, `key.Press` or `key.Release`. -/
inductive KeyState where
  | Press
  | Release
deriving DecidableEq

/-- A `key.Event`: the key's name, the modifier bit set and the state. -/
structure KeyEvent where
  Name : GoString
  Modifiers : Nat
  State : KeyState

/-- The events of the editor widget. -/
inductive EditorEvent where
  | SubmitEvent
  | ChangeEvent
  | SelectEvent
deriving DecidableEq

/-- A call made on the window. -/
inductive WindowCall (A : Type) where
  | EmitAction (a : A)
  | CloseModal

namespace CommandPalette

variable {A : Type}

/-- The zero value of `CommandPalette`. -/
def fresh : CommandPalette A where
  editorText := []
  list := ⟨0, 0, 0, 0, false⟩
  filtered := IntSlice.nil
  active := 0
  cmds := none

/-- The loop `for i := range pl.filtered { pl.filtered[i] = i }`, with `k`
iterations left and `i` the current index. -/
def fillLoop : Nat → Nat → IntSlice → Option IntSlice
  | 0, _, s => some s
  | k + 1, i, s => (s.set i (i : Int)).bind (fillLoop k (i + 1))

/-- The loop `for i := 0; i < pl.cmds.Len(); i++` of `filter`, with `k`
iterations left and `i` the current index: the index of every command whose
`Filter` accepts the input is appended. -/
def matchLoop (grow : Nat → Nat) (cmds : CommandProvider A) (input : GoString) :
    Nat → Nat → IntSlice → Option IntSlice
  | 0, _, s => some s
  | k + 1, i, s =>
    match cmds.At (i : Int) with
    | none => none
    | some c =>
      matchLoop grow cmds input k (i + 1) (if c.Filter input then s.append grow (i : Int) else s)

/-- The method `CommandPalette.filter`. -/
def filter (grow : Nat → Nat) (pl : CommandPalette A) (input : GoString) :
    Option (CommandPalette A) :=
  match pl.cmds with
  | none => none
  | some cmds =>
    if input = [] then
      let sized :=
        if pl.filtered.cap < cmds.Len then some (IntSlice.make cmds.Len)
        else pl.filtered.reslice cmds.Len
      sized.bind fun s => (fillLoop s.len 0 s).map fun s1 => { pl with filtered := s1 }
    else
      (pl.filtered.reslice 0).bind fun s =>
        (matchLoop grow cmds input cmds.Len 0 s).map fun s1 => { pl with filtered := s1 }

/-- The method `CommandPalette.Set`. -/
def Set (grow : Nat → Nat) (pl : CommandPalette A) (cmds : CommandProvider A) :
    Option (CommandPalette A) :=
  filter grow { pl with cmds := some cmds } pl.editorText

/-- The clamp of `active` at the start of `Layout`. -/
def clampActive (pl : CommandPalette A) : CommandPalette A :=
  if pl.active > (pl.filtered.len : Int) - 1 then
    { pl with active := max 0 ((pl.filtered.len : Int) - 1) }
  else pl

/-- The name of the up arrow key. -/
def keyUp : GoString := "↑".toList

/-- The name of the down arrow key. -/
def keyDown : GoString := "↓".toList

/-- The closure `handleKey` of `Layout`. `scrollTo` is the list's method
`ScrollTo`, which only acts on the list. -/
def handleKey (scrollTo : ListPosition → Int → ListPosition) (pl : CommandPalette A)
    (ev : KeyEvent) : CommandPalette A :=
  if ev.State = KeyState.Press ∧ ev.Modifiers = 0 then
    if ev.Name = keyUp then
      let active := pl.active - 1
      let active := if active < 0 then (pl.filtered.len : Int) - 1 else active
      let firstVisible := pl.list.First
      let firstVisible := if pl.list.Offset ≠ 0 then firstVisible + 1 else firstVisible
      if !(decide (active ≥ firstVisible) && decide (active < firstVisible + pl.list.Count)) then
        { pl with active := active, list := scrollTo pl.list active }
      else { pl with active := active }
    else if ev.Name = keyDown then
      let active := pl.active + 1
      if active ≥ (pl.filtered.len : Int) then
        { pl with active := 0, list := scrollTo pl.list 0 }
      else
        let last := pl.list.First + pl.list.Count - 1
        let last := if pl.list.OffsetLast ≠ 0 then last - 1 else last
        if active > last then
          let forced : ListPosition := { pl.list with ForceEndAligned := true }
          if forced.OffsetLast = 0 then
            { pl with active := active, list := { forced with Offset := forced.Offset + 1 } }
          else { pl with active := active, list := forced }
        else { pl with active := active }
    else pl
  else pl

/-- One iteration of the loop over `pl.editor.Events()` in `Layout`; `calls`
are the calls made on the window so far. -/
def handleEditorEvent (grow : Nat → Nat) (pl : CommandPalette A) (calls : List (WindowCall A))
    (ev : EditorEvent) : Option (CommandPalette A × List (WindowCall A)) :=
  match ev with
  | EditorEvent.SubmitEvent =>
    if pl.active < 0 ∨ pl.active ≥ (pl.filtered.len : Int) then some (pl, calls)
    else
      (pl.filtered.get pl.active).bind fun idx =>
        pl.cmds.bind fun cmds =>
          (cmds.At idx).bind fun c =>
            some (pl, calls ++ [WindowCall.EmitAction c.Link, WindowCall.CloseModal])
  | EditorEvent.ChangeEvent => (filter grow pl pl.editorText).map fun pl1 => (pl1, calls)
  | EditorEvent.SelectEvent => some (pl, calls)

/-- An unmodified press of the up arrow key. -/
def pressUp : KeyEvent := ⟨keyUp, 0, KeyState.Press⟩

/-- An unmodified press of the down arrow key. -/
def pressDown : KeyEvent := ⟨keyDown, 0, KeyState.Press⟩

end CommandPalette

/-- The three commands of the palette scenario. -/
def scenarioCmds (caseTable : Char → Char) : CommandSlice Unit :=
  [(labelled "Open file").toCommand caseTable, (labelled "Close file").toCommand caseTable,
    (labelled "Save as").toCommand caseTable]

/-! ## Specification vocabulary -/

/-- The string `substr` occurs in `s`: `s` is `substr` with something before and
something after it. -/
def IsSubstring (substr s : GoString) : Prop :=
  ∃ before after : GoString, s = before ++ substr ++ after

/-- The term `t` of a query is found in the command: lower-cased, it occurs in
the lower-cased primary label, secondary label or category, or in at least one
lower-cased alias. -/
def TermFound {A : Type} (caseTable : Char → Char) (cmd : NormalCommand A) (t : GoString) :
    Prop :=
  IsSubstring (stringsToLower caseTable t) (stringsToLower caseTable cmd.PrimaryLabel) ∨
  IsSubstring (stringsToLower caseTable t) (stringsToLower caseTable cmd.SecondaryLabel) ∨
  IsSubstring (stringsToLower caseTable t) (stringsToLower caseTable cmd.Category) ∨
  ∃ al ∈ cmd.Aliases, IsSubstring (stringsToLower caseTable t) (stringsToLower caseTable al)

/-- The indices `0, 1, ..., n-1` as Go ints. -/
def indices (n : Nat) : List Int :=
  List.map (fun j : Nat => (j : Int)) (List.range n)

namespace CommandPalette

variable {A : Type}

/-- Whether the command at index `j` exists and accepts the input. -/
def accepts (cmds : CommandProvider A) (input : GoString) (j : Nat) : Bool :=
  match cmds.At (j : Int) with
  | some c => c.Filter input
  | none => false

/-- The indices that the query `q` selects among the commands of `cmds`, in
increasing order: all of them for the empty query, else the accepted ones. -/
def selectedIndices (cmds : CommandProvider A) (q : GoString) : List Int :=
  List.map (fun j : Nat => (j : Int))
    ((List.range cmds.Len).filter fun j => decide (q = []) || accepts cmds q j)

/-- The list `l` holds, in strictly increasing order, indices of `cmds`, and holds
index `i` exactly when the query `q` is empty or the command at `i` accepts it. -/
def Selects (cmds : CommandProvider A) (q : GoString) (l : List Int) : Prop :=
  List.Pairwise (fun a b : Int => a < b) l ∧
  (∀ x ∈ l, 0 ≤ x ∧ x < (cmds.Len : Int)) ∧
  ∀ i : Nat, i < cmds.Len →
    ((i : Int) ∈ l ↔ (q = [] ∨ ∃ c, cmds.At (i : Int) = some c ∧ c.Filter q = true))

/-- Every element of the slice is an index at which `cmds.At` yields a command. -/
def ValidLookups (cmds : CommandProvider A) (s : IntSlice) : Prop :=
  ∀ k : Nat, k < s.len → ∃ x c, s.get (k : Int) = some x ∧ cmds.At x = some c

/-- The elements of `filtered` are indices of the palette's provider. -/
def FilteredInRange (pl : CommandPalette A) : Prop :=
  ∀ x ∈ pl.filtered.toList, ∃ cmds, pl.cmds = some cmds ∧ 0 ≤ x ∧ x < (cmds.Len : Int)

/-- The palette states reachable from the zero value by `Set`, query changes
(the editor's text changes and `filter` runs on it), the clamp at the start of
`Layout`, key events, the pointer moving over a listed row (the list widget lays
out rows `0` to `len(filtered)-1`), and the list widget updating its position.
The flag tells whether the clamp has run since the last `Set` or query change. -/
inductive Reach (grow : Nat → Nat) (scrollTo : ListPosition → Int → ListPosition) :
    Bool → CommandPalette A → Prop where
  | fresh : Reach grow scrollTo false fresh
  | set {b : Bool} {pl pl1 : CommandPalette A} (cmds : CommandProvider A) :
      Reach grow scrollTo b pl → Set grow pl cmds = some pl1 → Reach grow scrollTo false pl1
  | change {b : Bool} {pl pl1 : CommandPalette A} (q : GoString) :
      Reach grow scrollTo b pl → filter grow { pl with editorText := q } q = some pl1 →
      Reach grow scrollTo false pl1
  | clamp {b : Bool} {pl : CommandPalette A} :
      Reach grow scrollTo b pl → Reach grow scrollTo true (clampActive pl)
  | key {b : Bool} {pl : CommandPalette A} (ev : KeyEvent) :
      Reach grow scrollTo b pl → Reach grow scrollTo b (handleKey scrollTo pl ev)
  | hover {b : Bool} {pl : CommandPalette A} (index : Int) :
      Reach grow scrollTo b pl → 0 ≤ index → index < (pl.filtered.len : Int) →
      Reach grow scrollTo b { pl with active := index }
  | relayout {b : Bool} {pl : CommandPalette A} (l : ListPosition) :
      Reach grow scrollTo b pl → Reach grow scrollTo b { pl with list := l }

/-- What `handleKey` leaves in `active` for an up press. -/
def activeAfterUp (pl : CommandPalette A) : Int :=
  if pl.active - 1 < 0 then (pl.filtered.len : Int) - 1 else pl.active - 1

/-- What `handleKey` leaves in `active` for a down press. -/
def activeAfterDown (pl : CommandPalette A) : Int :=
  if pl.active + 1 ≥ (pl.filtered.len : Int) then 0 else pl.active + 1

end CommandPalette

/-! ## Scenario states -/

/-- A `ScrollTo` that makes the given row the first visible one. -/
def scrollFirst (l : ListPosition) (n : Int) : ListPosition :=
  { l with First := n, Offset := 0 }

/-- The zero palette after `Set` with the scenario commands: all three are
listed and `active` is 0. -/
def scenarioPalette : CommandPalette Unit where
  editorText := []
  list := ⟨0, 0, 0, 0, false⟩
  filtered := ⟨[0, 1, 2], 3, by decide⟩
  active := 0
  cmds := some (CommandSlice.toProvider (scenarioCmds id))

/-- The scenario palette after the query changed to "zzz": nothing is listed. -/
def emptiedPalette : CommandPalette Unit where
  editorText := "zzz".toList
  list := ⟨0, 0, 0, 0, false⟩
  filtered := ⟨[0, 1, 2], 0, by decide⟩
  active := 0
  cmds := some (CommandSlice.toProvider (scenarioCmds id))

/-- A palette over the scenario commands whose filtered slice holds the stale
elements 7, 7 and has capacity 5. -/
def stalePalette : CommandPalette Unit where
  editorText := []
  list := ⟨0, 0, 0, 0, false⟩
  filtered := ⟨[7, 7, 7, 7, 7], 2, by decide⟩
  active := 1
  cmds := some (CommandSlice.toProvider (scenarioCmds id))

/-! ## The provider that joins providers -/

/-- The struct `MultiCommandProvider`. -/
structure MultiCommandProvider (A : Type) where
  Providers : List (CommandProvider A)

namespace MultiCommandProvider

variable {A : Type}

/-- The loop of `MultiCommandProvider.Len` over the providers, `n` being the
running total. -/
def lenLoop : List (CommandProvider A) → Nat → Nat
  | [], n => n
  | cp :: rest, n => lenLoop rest (n + cp.Len)

/-- The method `MultiCommandProvider.Len`. -/
def Len (mcp : MultiCommandProvider A) : Nat :=
  lenLoop mcp.Providers 0

/-- The loop of `MultiCommandProvider.At`: while `idx` is not below the length
of the first remaining provider, that length is taken off `idx` and the
provider is dropped; then the first remaining provider answers. Evaluating
`providers[0]` on an empty slice panics. -/
def atLoop : List (CommandProvider A) → Int → Option (Command A)
  | [], _ => none
  | p :: rest, idx => if idx ≥ (p.Len : Int) then atLoop rest (idx - (p.Len : Int)) else p.At idx

/-- The method `MultiCommandProvider.At`. -/
def At (mcp : MultiCommandProvider A) (idx : Int) : Option (Command A) :=
  atLoop mcp.Providers idx

/-- A `MultiCommandProvider` seen through the `CommandProvider` interface. -/
def toProvider (mcp : MultiCommandProvider A) : CommandProvider A where
  At := mcp.At
  Len := mcp.Len

end MultiCommandProvider

/-- The commands of a provider, in order: the answers of `At` on `0` to
`Len() - 1`. -/
def CommandProvider.commands {A : Type} (p : CommandProvider A) : List (Command A) :=
  List.filterMap (fun i : Nat => p.At (i : Int)) (List.range p.Len)

/-- The commands of a list of providers, concatenated in provider order. -/
def concatCommands {A : Type} : List (CommandProvider A) → List (Command A)
  | [] => []
  | p :: rest => p.commands ++ concatCommands rest

/-- The number of commands held by the first `k` providers. -/
def offsetOf {A : Type} (ps : List (CommandProvider A)) (k : Nat) : Nat :=
  ((ps.take k).map fun p => p.Len).sum

/-- A command that accepts every query and links to `n`. -/
def linkCommand (n : Nat) : Command Nat :=
  ⟨fun _ => true, n⟩

/-- Three providers, the middle one without commands. -/
def scenarioProviders : MultiCommandProvider Nat :=
  ⟨[CommandSlice.toProvider [linkCommand 0], CommandSlice.toProvider [],
    CommandSlice.toProvider [linkCommand 1, linkCommand 2]]⟩

/-! ## The histogram settings -/

/-- The errors of Go's `strconv` parsers. -/
inductive ParseError where
  | ErrSyntax
  | ErrRange
deriving DecidableEq

/-- The rune is one of the decimal digits `0` to `9`. -/
def IsDecimalDigit (c : Char) : Prop :=
  '0'.toNat ≤ c.toNat ∧ c.toNat ≤ '9'.toNat

instance : DecidablePred IsDecimalDigit :=
  fun c => inferInstanceAs (Decidable ('0'.toNat ≤ c.toNat ∧ c.toNat ≤ '9'.toNat))

/-- The value of a decimal digit, `c - '0'`. -/
def digitValue (c : Char) : Nat :=
  c.toNat - '0'.toNat

/-- The digit loop of Go's `strconv.ParseUint` for base 10: every byte must be
a decimal digit (anything else is a syntax error), and the value read so far
must not exceed `maxVal` (else the result is `maxVal` with a range error). The
loop's guard against overflowing 64 bits cannot fire before the `maxVal` one
for the bit sizes used here. -/
def parseUintLoop (maxVal : Nat) : GoString → Nat → Nat × Option ParseError
  | [], n => (n, none)
  | c :: s, n =>
    if IsDecimalDigit c then
      if n * 10 + digitValue c > maxVal then (maxVal, some ParseError.ErrRange)
      else parseUintLoop maxVal s (n * 10 + digitValue c)
    else (0, some ParseError.ErrSyntax)

/-- Go's `strconv.ParseUint(s, 10, bitSize)`. -/
def strconvParseUint (s : GoString) (bitSize : Nat) : Nat × Option ParseError :=
  if s = [] then (0, some ParseError.ErrSyntax)
  else parseUintLoop (2 ^ bitSize - 1) s 0

/-- The part of Go's `strconv.ParseInt` after the sign has been read: the
digits go through `ParseUint`; a syntax error is passed on, and a magnitude that
does not fit `bitSize` bits with sign gives the nearest bound and a range
error. -/
def parseIntSigned (neg : Bool) (digits : GoString) (bitSize : Nat) : Int × Option ParseError :=
  let r := strconvParseUint digits bitSize
  if r.2 = some ParseError.ErrSyntax then (0, some ParseError.ErrSyntax)
  else if neg = false ∧ r.1 ≥ 2 ^ (bitSize - 1) then
    (((2 ^ (bitSize - 1) : Nat) : Int) - 1, some ParseError.ErrRange)
  else if neg = true ∧ r.1 > 2 ^ (bitSize - 1) then
    (-((2 ^ (bitSize - 1) : Nat) : Int), some ParseError.ErrRange)
  else (if neg = true then -(r.1 : Int) else (r.1 : Int), none)

/-- Go's `strconv.ParseInt(s, 10, bitSize)`: the empty string is a syntax
error; a leading `+` or `-` is the sign. -/
def strconvParseInt (s : GoString) (bitSize : Nat) : Int × Option ParseError :=
  match s with
  | [] => (0, some ParseError.ErrSyntax)
  | c :: rest =>
    if c = '+' then parseIntSigned false rest bitSize
    else if c = '-' then parseIntSigned true rest bitSize
    else parseIntSigned false (c :: rest) bitSize

/-- The struct `HistogramSettingsState`, as the text of its number-of-bins
editor and the value of its outliers switch. -/
structure HistogramSettingsState where
  numBinsEditorText : GoString
  filterOutliers : Bool

/-- The method `HistogramSettingsState.NumBins`. -/
def HistogramSettingsState.NumBins (hss : HistogramSettingsState) : Int :=
  let r := strconvParseInt hss.numBinsEditorText 32
  if r.2 ≠ none ∨ r.1 < 1 ∨ r.1 > 9999 then 100 else r.1

/-- The number written by a string of decimal digits, most significant first,
continuing from the value `n` already read. -/
def decimalValueFrom (n : Nat) : GoString → Nat
  | [] => n
  | c :: s => decimalValueFrom (n * 10 + digitValue c) s

/-- The text is a base-10 integer numeral for `n`: an optional sign `+` or `-`
followed by one or more decimal digits. -/
def DenotesInt (text : GoString) (n : Int) : Prop :=
  ∃ ds : GoString, ds ≠ [] ∧ (∀ c ∈ ds, IsDecimalDigit c) ∧
    (((text = ds ∨ text = '+' :: ds) ∧ n = (decimalValueFrom 0 ds : Int)) ∨
      (text = '-' :: ds ∧ n = -(decimalValueFrom 0 ds : Int)))

/-! ## Go `float32` -/

/-- The loop behind `floorLog2`, with `fuel` iterations allowed. -/
def floorLog2Loop : Nat → Nat → Nat
  | 0, _ => 0
  | fuel + 1, n => if n ≥ 2 then floorLog2Loop fuel (n / 2) + 1 else 0

/-- The position of the highest set bit of `n`: the largest `k` with
`2 ^ k ≤ n`, and `0` for `n = 0`. -/
def floorLog2 (n : Nat) : Nat :=
  floorLog2Loop n n

/-- A Go `float32`, an IEEE-754 binary32 value. `finite m e` is the number
`m * 2 ^ e` in the format's own form: `m = 0` and `e = 0` for zero, else
`2 ^ 23 ≤ |m| < 2 ^ 24` with `-149 ≤ e ≤ 104` for a normal number and
`|m| < 2 ^ 23` with `e = -149` for a subnormal one. The sign of a zero is not
kept: no divisor here is a computed zero. -/
inductive F32 where
  | finite (m : Int) (e : Int)
  | inf (negative : Bool)
  | nan
deriving DecidableEq

namespace F32

/-- The value zero. -/
def zero : F32 :=
  finite 0 0

/-- The exponent of the last place of the binary32 value nearest to
`(n / d) * 2 ^ x`, for positive `n` and `d`: with `top` the exponent of the
leading bit of the number, it is `top - 23`, and never below `-149`. -/
def lastPlace (n d : Nat) (x : Int) : Int :=
  let k : Int := (floorLog2 n : Int) - (floorLog2 d : Int)
  let above : Bool :=
    if 0 ≤ k then decide (d * 2 ^ k.toNat ≤ n) else decide (d ≤ n * 2 ^ (-k).toNat)
  let top : Int := if above then k else k - 1
  max (top + x - 23) (-149)

/-- The integer nearest to `(n / d) * 2 ^ s`, ties going to the even one. -/
def nearestEven (n d : Nat) (s : Int) : Nat :=
  let num : Nat := if 0 ≤ s then n * 2 ^ s.toNat else n
  let den : Nat := if 0 ≤ s then d else d * 2 ^ (-s).toNat
  let q : Nat := num / den
  let r : Nat := num % den
  if 2 * r > den ∨ (2 * r = den ∧ q % 2 = 1) then q + 1 else q

/-- The binary32 value with significand `q` and last place `u`, `q` being at
most `2 ^ 24`: a significand of `2 ^ 24` moves to the next exponent, an exponent
above `104` is an infinity, and a significand of `0` is zero. -/
def pack (negative : Bool) (q : Nat) (u : Int) : F32 :=
  let m : Nat := if q = 2 ^ 24 then 2 ^ 23 else q
  let e : Int := if q = 2 ^ 24 then u + 1 else u
  if e > 104 then inf negative
  else if m = 0 then zero
  else finite (if negative then -(m : Int) else (m : Int)) e

/-- The binary32 value nearest to `(n / d) * 2 ^ x`, ties going to the even
significand, with the given sign; `d` is positive. Too large a magnitude gives
an infinity, too small a one gives zero. -/
def round (negative : Bool) (n d : Nat) (x : Int) : F32 :=
  if n = 0 then zero
  else pack negative (nearestEven n d (x - lastPlace n d x)) (lastPlace n d x)

/-- The conversion `float32(x)` of an integer. -/
def ofInt (x : Int) : F32 :=
  round (decide (x < 0)) x.natAbs 1 0

/-- The quotient `a / b` of two `float32` values. -/
def div : F32 → F32 → F32
  | nan, _ => nan
  | _, nan => nan
  | inf _, inf _ => nan
  | inf a, finite m _ => inf (a != decide (m < 0))
  | finite _ _, inf _ => zero
  | finite m e, finite m2 e2 =>
    if m2 = 0 then
      if m = 0 then nan else inf (decide (m < 0))
    else round (decide (m < 0) != decide (m2 < 0)) m.natAbs m2.natAbs (e - e2)

/-- The product `a * b` of two `float32` values. -/
def mul : F32 → F32 → F32
  | nan, _ => nan
  | _, nan => nan
  | inf a, inf b => inf (a != b)
  | inf a, finite m _ => if m = 0 then nan else inf (a != decide (m < 0))
  | finite m _, inf b => if m = 0 then nan else inf (decide (m < 0) != b)
  | finite m e, finite m2 e2 =>
    round (decide (m < 0) != decide (m2 < 0)) (m.natAbs * m2.natAbs) 1 (e + e2)

end F32


/-! ## Traces, spans and machines -/

/-- Go's `int64` arithmetic: the result of an operation, wrapped into
`[-2^63, 2^63)`. -/
def wrapInt64 (x : Int) : Int :=
  (x + 2 ^ 63) % 2 ^ 64 - 2 ^ 63

/-- The event types that the machine code tells apart; `other` stands for
every other type of the `trace` package. -/
inductive EventType where
  | EvProcStart
  | EvGoSysBlock
  | other (code : Nat)
deriving DecidableEq

/-- The scheduling states that the machine code tells apart; `other` stands
for every other state of the `ptrace` package. -/
inductive SchedulingState where
  | StateRunningP
  | StateBlockedSyscall
  | StateRunningG
  | other (code : Nat)
deriving DecidableEq

/-- The fields of a `trace.Event` that the machine code reads. -/
structure Event where
  Typ : EventType
  P : Int
  G : Int
deriving DecidableEq

/-- The struct `ptrace.Span`. -/
structure Span where
  Start : Int
  End : Int
  Event : Int
  State : SchedulingState
deriving DecidableEq

/-- Modelled from the spec: the method `Duration` of `ptrace.Span` is outside
these sources; a span lasts from its `Start` to its `End`. -/
def Span.Duration (s : Span) : Int :=
  wrapInt64 (s.End - s.Start)

/-- The struct `ptrace.Machine`. -/
structure Machine where
  ID : Int
  Spans : List Span
  Goroutines : List Span

/-- The `Trace` as the machine code uses it: the event log `Events`, the result
`End` of `tr.End()`, and the accessors and label functions that are outside
these sources, `tr.P`, `tr.G` (`none` where they do not return),
`tr.processorSpanLabels` and `tr.goroutineSpanLabels`. -/
structure Trace (Proc Gor : Type) where
  Events : List Event
  End : Int
  P : Int → Option Proc
  G : Int → Option Gor
  processorSpanLabels : Proc → List GoString
  goroutineSpanLabels : Gor → List GoString

/-- The index expression `tr.Events[id]`, a panic outside the log. -/
def Trace.eventAt {Proc Gor : Type} (tr : Trace Proc Gor) (id : Int) : Option Event :=
  if 0 ≤ id then tr.Events[id.toNat]? else none

/-- Modelled from the spec: the accessor `tr.Event` is outside these sources;
a span's event reference is an index into the trace's flat event log. -/
def Trace.Event {Proc Gor : Type} (tr : Trace Proc Gor) (id : Int) : Option Event :=
  tr.eventAt id

/-- The menu items that the machine tracks build: the two generic ones, made
by `newZoomMenuItem` and `newOpenSpansMenuItem` from the span view, and the
items that scroll to a processor or a goroutine, with their label. -/
inductive MenuItem where
  | zoom (spans : List Span)
  | openSpans (spans : List Span)
  | scrollToProcessor (label : GoString) (pid : Int)
  | scrollToGoroutine (label : GoString) (gid : Int)

/-- The function `machineTrack0SpanLabel`. A span view is the list of its
spans: `Len` is its length and `AtPtr(0)` its head. -/
def machineTrack0SpanLabel {Proc Gor : Type} (spans : List Span) (tr : Trace Proc Gor)
    (out : List GoString) : Option (List GoString) :=
  if spans.length ≠ 1 then some out
  else
    match spans.head? with
    | none => none
    | some span =>
      match span.State with
      | SchedulingState.StateRunningP =>
        (tr.Event span.Event).bind fun ev =>
          (tr.P ev.P).bind fun p => some (out ++ tr.processorSpanLabels p)
      | SchedulingState.StateBlockedSyscall => some (out ++ ["syscall".toList])
      | _ => none

/-- The label that `machineTrack0SpanTooltip` hands to the tooltip widget.
`sprintD` is the `%d` of the printer `local`, and `spansDurationForTooltip` the
function of that name. -/
def machineTrack0SpanTooltip {Proc Gor : Type} (sprintD : Int → GoString)
    (spansDurationForTooltip : List Span → GoString) (tr : Trace Proc Gor)
    (spans : List Span) : Option GoString :=
  let label : Option GoString :=
    if spans.length = 1 then
      match spans.head? with
      | none => none
      | some s =>
        (tr.Event s.Event).bind fun ev =>
          match s.State with
          | SchedulingState.StateRunningP =>
            some ("Processor ".toList ++ sprintD ev.P ++ "\n".toList)
          | SchedulingState.StateBlockedSyscall => some "In blocking syscall\n".toList
          | _ => none
    else some (sprintD (spans.length : Int) ++ " spans\n".toList)
  label.map fun l => l ++ spansDurationForTooltip spans

/-- The function `machineTrack0SpanContextMenu`. -/
def machineTrack0SpanContextMenu {Proc Gor : Type} (sprintD : Int → GoString)
    (spans : List Span) (tr : Trace Proc Gor) : Option (List MenuItem) :=
  let items := [MenuItem.zoom spans, MenuItem.openSpans spans]
  if spans.length = 1 then
    match spans.head? with
    | none => none
    | some s =>
      match s.State with
      | SchedulingState.StateRunningP =>
        (tr.Event s.Event).bind fun ev =>
          some (items ++
            [MenuItem.scrollToProcessor ("Scroll to processor ".toList ++ sprintD ev.P) ev.P])
      | SchedulingState.StateBlockedSyscall => some items
      | _ => none
  else some items

/-- The function `machineTrack1SpanLabel`. -/
def machineTrack1SpanLabel {Proc Gor : Type} (spans : List Span) (tr : Trace Proc Gor)
    (out : List GoString) : Option (List GoString) :=
  if spans.length ≠ 1 then some out
  else
    match spans.head? with
    | none => none
    | some span =>
      (tr.Event span.Event).bind fun ev =>
        (tr.G ev.G).bind fun g => some (out ++ tr.goroutineSpanLabels g)

/-- The function `machineTrack1SpanContextMenu`. -/
def machineTrack1SpanContextMenu {Proc Gor : Type} (sprintD : Int → GoString)
    (spans : List Span) (tr : Trace Proc Gor) : Option (List MenuItem) :=
  let items := [] ++ [MenuItem.zoom spans]
  if spans.length = 1 then
    match spans.head? with
    | none => none
    | some s =>
      match s.State with
      | SchedulingState.StateRunningG =>
        (tr.Event s.Event).bind fun ev =>
          some (items ++
            [MenuItem.scrollToGoroutine ("Scroll to goroutine ".toList ++ sprintD ev.G) ev.G])
      | _ => none
  else some items

/-- The values that `MachineTooltip.Layout` formats into the tooltip's text:
the machine's ID, its number of spans, and the three durations, each with its
percentage. -/
structure MachineStatistics where
  ID : Int
  spans : Nat
  procD : Int
  procPct : F32
  syscallD : Int
  syscallPct : F32
  inactiveD : Int
  inactivePct : F32
deriving DecidableEq

namespace MachineTooltip

/-- The loop of `MachineTooltip.Layout` over `tt.m.Spans`, with `procD` and
`syscallD` the totals so far: a span adds its duration to the total of its
event's type, and any type but `EvProcStart` and `EvGoSysBlock` panics. -/
def spanLoop {Proc Gor : Type} (tr : Trace Proc Gor) : List Span → Int → Int → Option (Int × Int)
  | [], procD, syscallD => some (procD, syscallD)
  | s :: rest, procD, syscallD =>
    match tr.eventAt s.Event with
    | none => none
    | some ev =>
      match ev.Typ with
      | EventType.EvProcStart => spanLoop tr rest (wrapInt64 (procD + s.Duration)) syscallD
      | EventType.EvGoSysBlock => spanLoop tr rest procD (wrapInt64 (syscallD + s.Duration))
      | EventType.other _ => none

/-- The method `MachineTooltip.Layout`, up to the values it formats. -/
def Layout {Proc Gor : Type} (m : Machine) (tr : Trace Proc Gor) : Option MachineStatistics :=
  let d := tr.End
  (spanLoop tr m.Spans 0 0).map fun totals =>
    let procD := totals.1
    let syscallD := totals.2
    let procPct := F32.mul (F32.div (F32.ofInt procD) (F32.ofInt d)) (F32.ofInt 100)
    let syscallPct := F32.mul (F32.div (F32.ofInt syscallD) (F32.ofInt d)) (F32.ofInt 100)
    let inactiveD := wrapInt64 (wrapInt64 (d - procD) - syscallD)
    let inactivePct := F32.mul (F32.div (F32.ofInt inactiveD) (F32.ofInt d)) (F32.ofInt 100)
    { ID := m.ID, spans := m.Spans.length, procD := procD, procPct := procPct,
      syscallD := syscallD, syscallPct := syscallPct, inactiveD := inactiveD,
      inactivePct := inactivePct }

end MachineTooltip

/-- The kinds of track; `other` stands for every kind but the unspecified
one. -/
inductive TrackKind where
  | TrackKindUnspecified
  | other (code : Nat)
deriving DecidableEq

/-- The functions that `NewMachineTimeline` installs as hooks, by name. -/
inductive Hook where
  | machineTrack0SpanLabel
  | machineTrack0SpanTooltip
  | machineTrack0SpanContextMenu
  | machineTrack1SpanLabel
  | machineTrack1SpanColor
  | machineTrack1SpanContextMenu
  | processorTrackSpanTooltip
  | machineTooltip
deriving DecidableEq

/-- The struct `SimpleItems` over spans; `containerTrack` is the position in
`tl.tracks` of the track that `container.Track` points to. -/
structure SimpleItems where
  items : List Span
  containerTrack : Nat
  subslice : Bool

/-- The fields of a `Track` that `NewMachineTimeline` sets, and its kind. -/
structure Track where
  kind : TrackKind
  Start : Int
  End : Int
  spans : Option SimpleItems
  spanLabel : Option Hook
  spanColor : Option Hook
  spanTooltip : Option Hook
  spanContextMenu : Option Hook

/-- The fields of a `Timeline` that `NewMachineTimeline` sets. -/
structure Timeline where
  item : Machine
  label : GoString
  shortName : GoString
  widgetTooltip : Option Hook
  tracks : List Track

/-- The function `NewMachineTimeline`. The constant `supportMachineTimelines`,
the `%d` of the printer `local` and the constructor `NewTrack` are outside
these sources and are parameters. Indexing an empty `m.Spans` or
`m.Goroutines` panics. -/
def NewMachineTimeline (supportMachineTimelines : Bool) (sprintD : Int → GoString)
    (NewTrack : TrackKind → Track) (m : Machine) : Option Timeline :=
  if !supportMachineTimelines then none
  else
    let l := "Machine ".toList ++ sprintD m.ID
    let new0 := NewTrack TrackKind.TrackKindUnspecified
    let new1 := NewTrack TrackKind.TrackKindUnspecified
    m.Spans.head?.bind fun first0 =>
      m.Spans.getLast?.bind fun last0 =>
        let track0 : Track :=
          { new0 with
            Start := first0.Start
            End := last0.End
            spans := some ⟨m.Spans, 0, true⟩
            spanLabel := some Hook.machineTrack0SpanLabel
            spanTooltip := some Hook.machineTrack0SpanTooltip
            spanContextMenu := some Hook.machineTrack0SpanContextMenu }
        m.Goroutines.head?.bind fun first1 =>
          m.Goroutines.getLast?.bind fun last1 =>
            let track1 : Track :=
              { new1 with
                Start := first1.Start
                End := last1.End
                spans := some ⟨m.Goroutines, 1, true⟩
                spanLabel := some Hook.machineTrack1SpanLabel
                spanColor := some Hook.machineTrack1SpanColor
                spanTooltip := some Hook.processorTrackSpanTooltip
                spanContextMenu := some Hook.machineTrack1SpanContextMenu }
            some
              { item := m
                label := l
                shortName := l
                widgetTooltip := some Hook.machineTooltip
                tracks := [track0, track1] }

/-- The span refers to an event of type `EvProcStart`. -/
def Trace.isProcStart {Proc Gor : Type} (tr : Trace Proc Gor) (s : Span) : Bool :=
  match tr.eventAt s.Event with
  | some ev => decide (ev.Typ = EventType.EvProcStart)
  | none => false

/-- The span refers to an event of type `EvGoSysBlock`. -/
def Trace.isGoSysBlock {Proc Gor : Type} (tr : Trace Proc Gor) (s : Span) : Bool :=
  match tr.eventAt s.Event with
  | some ev => decide (ev.Typ = EventType.EvGoSysBlock)
  | none => false

/-- The sum of the durations of the spans. -/
def totalDuration (spans : List Span) : Int :=
  (spans.map Span.Duration).sum

/-- Every span of the machine refers to an `EvProcStart` or `EvGoSysBlock` event
of the trace. -/
def MachineSpansTyped {Proc Gor : Type} (m : Machine) (tr : Trace Proc Gor) : Prop :=
  ∀ s ∈ m.Spans, tr.isProcStart s = true ∨ tr.isGoSysBlock s = true

instance {Proc Gor : Type} (m : Machine) (tr : Trace Proc Gor) :
    Decidable (MachineSpansTyped m tr) :=
  inferInstanceAs
    (Decidable (∀ s ∈ m.Spans, tr.isProcStart s = true ∨ tr.isGoSysBlock s = true))

/-- The percentage that `MachineTooltip.Layout` computes for the duration
`part` of the total `d`: `float32(part) / float32(d) * 100`. -/
def percent (part d : Int) : F32 :=
  F32.mul (F32.div (F32.ofInt part) (F32.ofInt d)) (F32.ofInt 100)

/-- A machine with the given spans and no goroutine spans. -/
def machineOf (spans : List Span) : Machine where
  ID := 0
  Spans := spans
  Goroutines := []

/-- The scenario machine with one goroutine span, running over 2..18. -/
def busyMachine : Machine where
  ID := 0
  Spans := [⟨0, 10, 0, SchedulingState.StateRunningP⟩,
    ⟨10, 15, 1, SchedulingState.StateBlockedSyscall⟩, ⟨15, 20, 0, SchedulingState.StateRunningP⟩]
  Goroutines := [⟨2, 18, 0, SchedulingState.StateRunningG⟩]

/-- A `NewTrack` that returns a track with nothing set. -/
def blankTrack (kind : TrackKind) : Track where
  kind := kind
  Start := 0
  End := 0
  spans := none
  spanLabel := none
  spanColor := none
  spanTooltip := none
  spanContextMenu := none

/-- The scenario trace: event 0 starts a processor, event 1 blocks in a
syscall; the trace ends at 20. -/
def scenarioTrace : Trace Unit Unit where
  Events := [⟨EventType.EvProcStart, 0, 0⟩, ⟨EventType.EvGoSysBlock, 0, 0⟩]
  End := 20
  P := fun _ => some ()
  G := fun _ => some ()
  processorSpanLabels := fun _ => []
  goroutineSpanLabels := fun _ => []

/-- The scenario trace cut down to a single instant: it ends at 0. -/
def instantTrace : Trace Unit Unit where
  Events := scenarioTrace.Events
  End := 0
  P := scenarioTrace.P
  G := scenarioTrace.G
  processorSpanLabels := scenarioTrace.processorSpanLabels
  goroutineSpanLabels := scenarioTrace.goroutineSpanLabels

/-- The scenario machine: running over 0..10, blocked in a syscall over 10..15,
running over 15..20. -/
def scenarioMachine : Machine where
  ID := 0
  Spans := [⟨0, 10, 0, SchedulingState.StateRunningP⟩, ⟨10, 15, 1, SchedulingState.StateBlockedSyscall⟩,
    ⟨15, 20, 0, SchedulingState.StateRunningP⟩]
  Goroutines := []

/-! ## The interactive histogram and its Future -/

/-- Modelled from the spec: the type `theme.Future` is outside these sources. A
Future is a cell for one background computation: `result` is the value that the
computation returns, `ready` tells whether the computation has finished, and
`cancelRequested` whether its cancel signal has been raised. -/
structure Future (T : Type) where
  result : T
  ready : Bool
  cancelRequested : Bool
deriving DecidableEq

/-- Modelled from the spec: the function `theme.NewFuture` is outside these
sources. It makes a new cell and starts its computation off the interaction
thread: the cell is pending and not cancelled, and no other cell is touched. -/
def NewFuture {T : Type} (result : T) : Future T :=
  ⟨result, false, false⟩

/-- Modelled from the spec: the method `Result` of `theme.Future` is outside
these sources. It is the non-blocking poll: nothing while the computation is
pending, and nothing once cancellation was requested. -/
def Future.Result {T : Type} (ft : Future T) : Option T :=
  if ft.ready = true ∧ ft.cancelRequested = false then some ft.result else none

/-- The struct `InteractiveHistogram`, as its field `widget` (`none` for the nil
pointer) together with the Futures that `widget` pointed to earlier: their
computations were started, and nothing refers to them any more. -/
structure InteractiveHistogram (H : Type) where
  widget : Option (Future H)
  dropped : List (Future H)

namespace InteractiveHistogram

variable {D H : Type}

/-- The zero value of `InteractiveHistogram`. -/
def fresh : InteractiveHistogram H :=
  ⟨none, []⟩

/-- The method `InteractiveHistogram.Set`: `hist.widget` is overwritten with a
new Future whose computation builds the histogram of `data`; `newHistogram` is
`widget.NewHistogram` with the histogram's configuration. -/
def Set (newHistogram : D → H) (hist : InteractiveHistogram H) (data : D) :
    InteractiveHistogram H :=
  { widget := some (NewFuture (newHistogram data))
    dropped := hist.widget.toList ++ hist.dropped }

/-- The poll `hist.widget.Result()` of `InteractiveHistogram.Layout`; calling it
on the nil pointer panics. -/
def poll (hist : InteractiveHistogram H) : Option (Option H) :=
  hist.widget.map Future.Result

/-- One step of the background: the computation of the current Future, or of a
dropped one, finishes. -/
inductive Finishes : InteractiveHistogram H → InteractiveHistogram H → Prop where
  | current (hist : InteractiveHistogram H) (ft : Future H) :
      hist.widget = some ft →
      Finishes hist { hist with widget := some { ft with ready := true } }
  | dropped (hist : InteractiveHistogram H) (before after : List (Future H)) (ft : Future H) :
      hist.dropped = before ++ ft :: after →
      Finishes hist { hist with dropped := before ++ { ft with ready := true } :: after }

/-- Any number of background steps. -/
inductive Later : InteractiveHistogram H → InteractiveHistogram H → Prop where
  | now (hist : InteractiveHistogram H) : Later hist hist
  | step {a b c : InteractiveHistogram H} : Later a b → Finishes b c → Later a c

/-- The current Future computes `v` and is not cancelled, and some dropped
Future computes `w` and is not cancelled. -/
def Superseded (v w : H) (hist : InteractiveHistogram H) : Prop :=
  (∃ ft, hist.widget = some ft ∧ ft.result = v ∧ ft.cancelRequested = false) ∧
  ∃ ft ∈ hist.dropped, ft.result = w ∧ ft.cancelRequested = false

end InteractiveHistogram

/-! ## Lemmas on the string functions -/

theorem stringsHasPrefix_iff (s p : GoString) :
    stringsHasPrefix s p = true ↔ ∃ after : GoString, s = p ++ after := by
  induction p generalizing s with
  | nil => simp [stringsHasPrefix]
  | cons d p ih =>
    cases s with
    | nil => simp [stringsHasPrefix]
    | cons c s =>
      simp only [stringsHasPrefix, Bool.and_eq_true, beq_iff_eq, ih, List.cons_append,
        List.cons.injEq]
      constructor
      · rintro ⟨rfl, after, rfl⟩
        exact ⟨after, rfl, rfl⟩
      · rintro ⟨after, rfl, rfl⟩
        exact ⟨rfl, after, rfl⟩

theorem stringsContains_iff (s substr : GoString) :
    stringsContains s substr = true ↔ IsSubstring substr s := by
  induction s with
  | nil =>
    simp only [stringsContains, stringsHasPrefix_iff, IsSubstring]
    constructor
    · rintro ⟨after, h⟩
      exact ⟨[], after, by simpa using h⟩
    · rintro ⟨before, after, h⟩
      have h1 : before ++ substr ++ after = [] := h.symm
      simp only [List.append_eq_nil] at h1
      exact ⟨[], by simp [h1.1.2]⟩
  | cons c s ih =>
    simp only [stringsContains, Bool.or_eq_true, stringsHasPrefix_iff, ih, IsSubstring]
    constructor
    · rintro (⟨after, h⟩ | ⟨before, after, h⟩)
      · exact ⟨[], after, by simpa using h⟩
      · exact ⟨c :: before, after, by simp [h]⟩
    · rintro ⟨before, after, h⟩
      cases before with
      | nil => exact Or.inl ⟨after, by simpa using h⟩
      | cons b before =>
        simp only [List.cons_append, List.cons.injEq] at h
        exact Or.inr ⟨before, after, h.2⟩

theorem stringsFieldsAux_of_space (s : GoString) (h : ∀ r ∈ s, unicodeIsSpace r = true) :
    stringsFieldsAux s [] = [] := by
  induction s with
  | nil => rfl
  | cons r s ih =>
    have hr : unicodeIsSpace r = true := h r (List.mem_cons_self _ _)
    have hs : ∀ x ∈ s, unicodeIsSpace x = true := fun x hx => h x (List.mem_cons_of_mem _ hx)
    simp [stringsFieldsAux, hr, ih hs]

namespace NormalCommand

variable {A : Type}

theorem anyAlias_iff (caseTable : Char → Char) (lf : GoString) (aliases : List GoString) :
    anyAlias caseTable lf aliases = true ↔
      ∃ al ∈ aliases, IsSubstring lf (stringsToLower caseTable al) := by
  induction aliases with
  | nil => simp [anyAlias]
  | cons al rest ih =>
    by_cases hc : stringsContains (stringsToLower caseTable al) lf = true
    · have hs := (stringsContains_iff _ _).1 hc
      simp only [anyAlias, hc, if_true, true_iff]
      exact ⟨al, List.mem_cons_self _ _, hs⟩
    · have hn : ¬ IsSubstring lf (stringsToLower caseTable al) :=
        fun hs => hc ((stringsContains_iff _ _).2 hs)
      simp only [anyAlias, hc, if_false, Bool.false_eq_true, ih, List.mem_cons]
      constructor
      · rintro ⟨a, ha, hsub⟩
        exact ⟨a, Or.inr ha, hsub⟩
      · rintro ⟨a, ha | ha, hsub⟩
        · exact absurd (ha ▸ hsub) hn
        · exact ⟨a, ha, hsub⟩

theorem filterLoop_iff (caseTable : Char → Char) (cmd : NormalCommand A) (fs : List GoString) :
    filterLoop caseTable cmd fs = true ↔ ∀ t ∈ fs, TermFound caseTable cmd t := by
  induction fs with
  | nil => simp [filterLoop]
  | cons f fs ih =>
    have key : TermFound caseTable cmd f ↔
        ((stringsContains (stringsToLower caseTable cmd.PrimaryLabel)
            (stringsToLower caseTable f) ||
          stringsContains (stringsToLower caseTable cmd.SecondaryLabel)
            (stringsToLower caseTable f) ||
          stringsContains (stringsToLower caseTable cmd.Category)
            (stringsToLower caseTable f)) = true ∨
        anyAlias caseTable (stringsToLower caseTable f) cmd.Aliases = true) := by
      simp only [TermFound, Bool.or_eq_true, stringsContains_iff, anyAlias_iff, or_assoc]
    have step : filterLoop caseTable cmd (f :: fs) =
        (if !(stringsContains (stringsToLower caseTable cmd.PrimaryLabel)
                (stringsToLower caseTable f) ||
              stringsContains (stringsToLower caseTable cmd.SecondaryLabel)
                (stringsToLower caseTable f) ||
              stringsContains (stringsToLower caseTable cmd.Category)
                (stringsToLower caseTable f)) then
            if !(anyAlias caseTable (stringsToLower caseTable f) cmd.Aliases) then false
            else filterLoop caseTable cmd fs
          else filterLoop caseTable cmd fs) := rfl
    simp only [List.mem_cons, forall_eq_or_imp, key, ← ih, step]
    cases (stringsContains (stringsToLower caseTable cmd.PrimaryLabel)
            (stringsToLower caseTable f) ||
          stringsContains (stringsToLower caseTable cmd.SecondaryLabel)
            (stringsToLower caseTable f) ||
          stringsContains (stringsToLower caseTable cmd.Category)
            (stringsToLower caseTable f)) <;>
      cases anyAlias caseTable (stringsToLower caseTable f) cmd.Aliases <;>
      simp

end NormalCommand

/-! ## Lemmas on slices -/

namespace IntSlice

theorem toList_length (s : IntSlice) : s.toList.length = s.len := by
  simp [toList, Nat.min_eq_left s.len_le]

theorem toList_append (grow : Nat → Nat) (s : IntSlice) (v : Int) :
    (s.append grow v).toList = s.toList ++ [v] := by
  unfold append toList
  by_cases h : s.len < s.backing.length
  · simp only [h, dite_true]
    apply List.ext_getElem?
    intro j
    simp only [List.getElem?_take, List.getElem?_set, List.getElem?_append,
      List.length_take, Nat.min_eq_left s.len_le]
    by_cases h1 : j < s.len
    · have h2 : j < s.len + 1 := by omega
      have h3 : ¬ s.len = j := by omega
      simp [h1, h2, h3]
    · by_cases h4 : j = s.len
      · subst h4
        simp [h]
      · have h5 : ¬ j < s.len + 1 := by omega
        have h6 : 1 ≤ j - s.len := by omega
        simp [h1, h5, h6]
  · simp only [h, dite_false]
    have hl : (List.take s.len s.backing).length = s.len := by
      simp [Nat.min_eq_left s.len_le]
    have h7 : List.take (s.len + 1)
        (List.take s.len s.backing ++ v :: List.replicate (grow s.backing.length) 0) =
        List.take s.len s.backing ++ [v] := by
      rw [List.take_append_eq_append_take, hl]
      simp [List.take_take]
    exact h7

theorem toList_reslice_zero (s s0 : IntSlice) (h : s.reslice 0 = some s0) : s0.toList = [] := by
  unfold reslice at h
  simp only [Nat.zero_le, dite_true, Option.some.injEq] at h
  subst h
  simp [toList]

theorem reslice_zero_isSome (s : IntSlice) : ∃ s0, s.reslice 0 = some s0 := by
  unfold reslice
  simp

theorem get_eq_getElem? (s : IntSlice) (k : Nat) (h : k < s.len) :
    s.get (k : Int) = s.toList[k]? := by
  unfold get toList
  have h1 : (0 : Int) ≤ (k : Int) ∧ (k : Int) < (s.len : Int) := ⟨by omega, by omega⟩
  simp [h1, List.getElem?_take, h]

end IntSlice

theorem indices_length (n : Nat) : (indices n).length = n := by
  unfold indices
  rw [List.length_map, List.length_range]

theorem indices_getElem? (n j : Nat) (h : j < n) : (indices n)[j]? = some (j : Int) := by
  unfold indices
  rw [List.getElem?_map, List.getElem?_range h]
  rfl

namespace CommandPalette

variable {A : Type}

theorem fillLoop_spec (k : Nat) : ∀ (i : Nat) (s : IntSlice), i + k = s.len →
    (∀ j : Nat, j < i → s.backing[j]? = some (j : Int)) →
    ∃ s1, fillLoop k i s = some s1 ∧ s1.len = s.len ∧
      ∀ j : Nat, j < i + k → s1.backing[j]? = some (j : Int) := by
  induction k with
  | zero =>
    intro i s _ hpre
    exact ⟨s, rfl, rfl, by simpa using hpre⟩
  | succ k ih =>
    intro i s hlen hpre
    have hi : i < s.len := by omega
    have hb : i < s.backing.length := Nat.lt_of_lt_of_le hi s.len_le
    have hset : s.set i (i : Int) =
        some ⟨s.backing.set i (i : Int), s.len, by simpa using s.len_le⟩ := by
      simp [IntSlice.set, hi]
    obtain ⟨s1, h1, h2, h3⟩ := ih (i + 1)
      ⟨s.backing.set i (i : Int), s.len, by simpa using s.len_le⟩ (by simp; omega)
      (by
        intro j hj
        simp only [List.getElem?_set]
        by_cases hij : i = j
        · subst hij
          simp [hb]
        · simp only [hij, if_false]
          exact hpre j (by omega))
    refine ⟨s1, ?_, h2, ?_⟩
    · simp only [fillLoop, hset, Option.some_bind]
      exact h1
    · intro j hj
      exact h3 j (by omega)

theorem fillLoop_indices (s : IntSlice) :
    ∃ s1, fillLoop s.len 0 s = some s1 ∧ s1.toList = indices s.len := by
  obtain ⟨s1, h1, h2, h3⟩ := fillLoop_spec s.len 0 s (by simp) (by intro j hj; omega)
  refine ⟨s1, h1, ?_⟩
  apply List.ext_getElem?
  intro j
  by_cases hj : j < s.len
  · simp only [IntSlice.toList, List.getElem?_take, h2, hj, if_true, indices_getElem? _ _ hj]
    exact h3 j (by omega)
  · have h4 : s.len ≤ j := by omega
    have h5 : (indices s.len).length ≤ j := by simpa [indices_length] using h4
    simp [IntSlice.toList, List.getElem?_take, h2, hj, List.getElem?_eq_none h5]

theorem matchLoop_spec (grow : Nat → Nat) (cmds : CommandProvider A) (input : GoString)
    (k : Nat) : ∀ (i : Nat) (s : IntSlice),
    (∀ j : Nat, i ≤ j → j < i + k → (cmds.At (j : Int)).isSome = true) →
    ∃ s1, matchLoop grow cmds input k i s = some s1 ∧
      s1.toList = s.toList ++
        List.map (fun j : Nat => (j : Int)) ((List.range' i k).filter (accepts cmds input)) := by
  induction k with
  | zero =>
    intro i s _
    exact ⟨s, rfl, by simp⟩
  | succ k ih =>
    intro i s hwf
    have hi := hwf i (Nat.le_refl _) (by omega)
    obtain ⟨c, hc⟩ := Option.isSome_iff_exists.1 hi
    have hacc : accepts cmds input i = c.Filter input := by simp [accepts, hc]
    obtain ⟨s1, h1, h2⟩ := ih (i + 1)
      (if c.Filter input then s.append grow (i : Int) else s)
      (fun j hj1 hj2 => hwf j (by omega) (by omega))
    refine ⟨s1, ?_, ?_⟩
    · simp only [matchLoop, hc]
      exact h1
    · rw [h2, List.range'_succ, List.filter_cons, hacc]
      by_cases hf : c.Filter input = true
      · simp [hf, IntSlice.toList_append]
      · simp [hf]

end CommandPalette

/-! ## What `filter` computes -/

/-- A `CommandSlice` answers `At` on all of its indices. -/
theorem CommandSlice.wellFormed {A : Type} (cs : CommandSlice A) :
    (CommandSlice.toProvider cs).WellFormed := by
  intro i hi
  have h1 : i < List.length cs := hi
  simp [CommandSlice.toProvider, CommandSlice.At, List.get?_eq_getElem?, h1]

theorem CommandSlice.At_eq_getElem? {A : Type} (cs : CommandSlice A) (j : Nat) :
    (CommandSlice.toProvider cs).At (j : Int) = (show List (Command A) from cs)[j]? := by
  simp [CommandSlice.toProvider, CommandSlice.At, List.get?_eq_getElem?]

namespace CommandPalette

variable {A : Type}

theorem selectedIndices_nil (cmds : CommandProvider A) :
    selectedIndices cmds [] = indices cmds.Len := by
  unfold selectedIndices indices
  congr 1
  rw [List.filter_eq_self]
  intro a _
  simp

theorem filter_result (grow : Nat → Nat) (pl : CommandPalette A) (cmds : CommandProvider A)
    (q : GoString) (hc : pl.cmds = some cmds) (hwf : q ≠ [] → cmds.WellFormed) :
    ∃ s1, filter grow pl q = some { pl with filtered := s1 } ∧
      s1.toList = selectedIndices cmds q := by
  by_cases hq : q = []
  · subst hq
    rw [selectedIndices_nil]
    by_cases hcap : pl.filtered.cap < cmds.Len
    · obtain ⟨s1, h1, h2⟩ := fillLoop_indices (IntSlice.make cmds.Len)
      refine ⟨s1, ?_, by simpa [IntSlice.make] using h2⟩
      simp [filter, hc, hcap, h1]
    · have hle : cmds.Len ≤ pl.filtered.backing.length := by
        simpa [IntSlice.cap] using hcap
      obtain ⟨s1, h1, h2⟩ := fillLoop_indices ⟨pl.filtered.backing, cmds.Len, hle⟩
      refine ⟨s1, ?_, h2⟩
      have h3 : fillLoop cmds.Len 0 ⟨pl.filtered.backing, cmds.Len, hle⟩ = some s1 := h1
      simp [filter, hc, hcap, IntSlice.reslice, hle, h3]
  · obtain ⟨s0, h0⟩ := IntSlice.reslice_zero_isSome pl.filtered
    have hs0 := IntSlice.toList_reslice_zero _ _ h0
    obtain ⟨s1, h1, h2⟩ := matchLoop_spec grow cmds q cmds.Len 0 s0
      (fun j _ hj => hwf hq j (by omega))
    refine ⟨s1, ?_, ?_⟩
    · simp [filter, hc, hq, h0, h1]
    · rw [h2, hs0, List.nil_append, ← List.range_eq_range']
      unfold selectedIndices
      congr 1
      apply List.filter_congr
      intro a _
      simp [hq]

theorem mem_selectedIndices (cmds : CommandProvider A) (q : GoString) (x : Int) :
    x ∈ selectedIndices cmds q ↔
      ∃ j : Nat, j < cmds.Len ∧ (q = [] ∨ accepts cmds q j = true) ∧ x = (j : Int) := by
  unfold selectedIndices
  simp only [List.mem_map, List.mem_filter, List.mem_range, Bool.or_eq_true, decide_eq_true_eq]
  constructor
  · rintro ⟨j, ⟨h1, h2⟩, rfl⟩
    exact ⟨j, h1, h2, rfl⟩
  · rintro ⟨j, h1, h2, rfl⟩
    exact ⟨j, ⟨h1, h2⟩, rfl⟩

theorem accepts_iff (cmds : CommandProvider A) (q : GoString) (j : Nat) :
    accepts cmds q j = true ↔ ∃ c, cmds.At (j : Int) = some c ∧ c.Filter q = true := by
  unfold accepts
  cases cmds.At (j : Int) <;> simp

theorem pairwise_selectedIndices (cmds : CommandProvider A) (q : GoString) :
    List.Pairwise (fun a b : Int => a < b) (selectedIndices cmds q) := by
  unfold selectedIndices
  apply List.Pairwise.map (fun j : Nat => (j : Int)) (fun a b hab => Int.ofNat_lt.2 hab)
  exact List.Pairwise.filter _ (List.pairwise_lt_range cmds.Len)

theorem selects_selectedIndices (cmds : CommandProvider A) (q : GoString) :
    Selects cmds q (selectedIndices cmds q) := by
  refine ⟨pairwise_selectedIndices cmds q, ?_, ?_⟩
  · intro x hx
    obtain ⟨j, h1, _, rfl⟩ := (mem_selectedIndices cmds q x).1 hx
    exact ⟨by omega, by omega⟩
  · intro i hi
    rw [mem_selectedIndices, ← accepts_iff]
    constructor
    · rintro ⟨j, _, h2, h3⟩
      have h4 : i = j := by omega
      subst h4
      exact h2
    · intro h
      exact ⟨i, hi, h, rfl⟩

theorem filter_outcome (grow : Nat → Nat) (pl : CommandPalette A) (cmds : CommandProvider A)
    (q : GoString) (hc : pl.cmds = some cmds) (hwf : cmds.WellFormed) :
    ∃ pl1, filter grow pl q = some pl1 ∧ Selects cmds q pl1.filtered.toList ∧
      ValidLookups cmds pl1.filtered := by
  obtain ⟨s1, h1, h2⟩ := filter_result grow pl cmds q hc (fun _ => hwf)
  refine ⟨_, h1, ?_, ?_⟩
  · show Selects cmds q s1.toList
    rw [h2]
    exact selects_selectedIndices cmds q
  · intro k hk
    have hk1 : k < s1.len := hk
    have hk2 : k < s1.toList.length := by rw [IntSlice.toList_length]; exact hk1
    have hmem : s1.toList[k] ∈ selectedIndices cmds q := by
      rw [← h2]
      exact List.getElem_mem hk2
    obtain ⟨j, hj, _, hx⟩ := (mem_selectedIndices cmds q _).1 hmem
    obtain ⟨c, hcj⟩ := Option.isSome_iff_exists.1 (hwf j hj)
    refine ⟨s1.toList[k], c, ?_, ?_⟩
    · show s1.get (k : Int) = _
      rw [IntSlice.get_eq_getElem? s1 k hk1, List.getElem?_eq_getElem hk2]
    · rw [hx]
      exact hcj

theorem lookups_lift (cmds : CommandProvider A) (P : Command A → Prop) (l : List Int)
    (h : ∀ x ∈ l, ∃ c, cmds.At x = some c ∧ P c) :
    ∃ sel : List (Command A), List.map cmds.At l = List.map some sel ∧ ∀ c ∈ sel, P c := by
  induction l with
  | nil => exact ⟨[], rfl, by simp⟩
  | cons x l ih =>
    obtain ⟨c, hc, hp⟩ := h x (List.mem_cons_self _ _)
    obtain ⟨sel, h1, h2⟩ := ih (fun y hy => h y (List.mem_cons_of_mem _ hy))
    refine ⟨c :: sel, by simp [hc, h1], ?_⟩
    intro d hd
    rcases List.mem_cons.1 hd with rfl | hd
    · exact hp
    · exact h2 d hd

theorem selectedIndices_of_all (cs : CommandSlice A) (q : GoString)
    (h : ∀ c ∈ (show List (Command A) from cs), q = [] ∨ c.Filter q = true) :
    selectedIndices (CommandSlice.toProvider cs) q = indices (List.length cs) := by
  unfold selectedIndices indices
  congr 1
  show List.filter _ (List.range (List.length cs)) = _
  rw [List.filter_eq_self]
  intro j hj
  have hj1 : j < List.length cs := List.mem_range.1 hj
  have hget : (CommandSlice.toProvider cs).At (j : Int) =
      some ((show List (Command A) from cs)[j]) := by
    rw [CommandSlice.At_eq_getElem?, List.getElem?_eq_getElem hj1]
  rcases h _ (List.getElem_mem hj1) with hq | hf
  · simp [hq]
  · simp [accepts, hget, hf]

end CommandPalette

/-! ## Reachable palette states -/

namespace CommandPalette

variable {A : Type}

theorem clampActive_active (pl : CommandPalette A) :
    (clampActive pl).active =
      if pl.active > (pl.filtered.len : Int) - 1 then max 0 ((pl.filtered.len : Int) - 1)
      else pl.active := by
  unfold clampActive
  split_ifs <;> rfl

theorem keyDown_ne_keyUp : ¬ keyDown = keyUp := by decide

theorem handleKey_cases (scrollTo : ListPosition → Int → ListPosition) (pl : CommandPalette A)
    (ev : KeyEvent) :
    (handleKey scrollTo pl ev).filtered = pl.filtered ∧
    (handleKey scrollTo pl ev).cmds = pl.cmds ∧
    (handleKey scrollTo pl ev).editorText = pl.editorText ∧
    ((handleKey scrollTo pl ev).active = pl.active ∨
      (handleKey scrollTo pl ev).active = activeAfterUp pl ∨
      (handleKey scrollTo pl ev).active = activeAfterDown pl) := by
  unfold handleKey activeAfterUp activeAfterDown
  dsimp only
  split_ifs <;> simp

theorem handleKey_pressUp (scrollTo : ListPosition → Int → ListPosition)
    (pl : CommandPalette A) :
    (handleKey scrollTo pl pressUp).active = activeAfterUp pl := by
  unfold handleKey activeAfterUp pressUp
  dsimp only
  split_ifs <;> simp_all

theorem handleKey_pressDown (scrollTo : ListPosition → Int → ListPosition)
    (pl : CommandPalette A) :
    (handleKey scrollTo pl pressDown).active = activeAfterDown pl := by
  unfold handleKey activeAfterDown pressDown
  dsimp only
  simp only [keyDown_ne_keyUp, if_false]
  split_ifs <;> simp_all

theorem matchLoop_some (grow : Nat → Nat) (cmds : CommandProvider A) (input : GoString)
    (k : Nat) : ∀ (i : Nat) (s s1 : IntSlice), matchLoop grow cmds input k i s = some s1 →
    ∀ j : Nat, i ≤ j → j < i + k → (cmds.At (j : Int)).isSome = true := by
  induction k with
  | zero =>
    intro i s s1 _ j h1 h2
    omega
  | succ k ih =>
    intro i s s1 h j h1 h2
    unfold matchLoop at h
    cases hc : cmds.At (i : Int) with
    | none => simp [hc] at h
    | some c =>
      simp only [hc] at h
      by_cases hij : j = i
      · subst hij
        simp [hc]
      · exact ih (i + 1) _ s1 h j (by omega) (by omega)

theorem filter_some (grow : Nat → Nat) (pl pl1 : CommandPalette A) (q : GoString)
    (h : filter grow pl q = some pl1) :
    ∃ cmds s1, pl.cmds = some cmds ∧ pl1 = { pl with filtered := s1 } ∧
      s1.toList = selectedIndices cmds q := by
  rcases Option.eq_none_or_eq_some pl.cmds with hc | ⟨cmds, hc⟩
  · simp [filter, hc] at h
  · have hwf : q ≠ [] → cmds.WellFormed := by
      intro hq i hi
      obtain ⟨s0, h0⟩ := IntSlice.reslice_zero_isSome pl.filtered
      simp only [filter, hc, hq, if_false, h0, Option.some_bind] at h
      cases hm : matchLoop grow cmds q cmds.Len 0 s0 with
      | none => simp [hm] at h
      | some s1 => exact matchLoop_some grow cmds q cmds.Len 0 s0 s1 hm i (by omega) (by omega)
    obtain ⟨s1, h1, h2⟩ := filter_result grow pl cmds q hc hwf
    rw [h1] at h
    exact ⟨cmds, s1, hc, (Option.some.inj h).symm, h2⟩

theorem filter_inRange (grow : Nat → Nat) (pl pl1 : CommandPalette A) (q : GoString)
    (h : filter grow pl q = some pl1) : FilteredInRange pl1 ∧ pl1.active = pl.active := by
  obtain ⟨cmds, s1, h1, h2, h3⟩ := filter_some grow pl pl1 q h
  subst h2
  refine ⟨?_, rfl⟩
  intro x hx
  have hx1 : x ∈ selectedIndices cmds q := by rw [← h3]; exact hx
  obtain ⟨j, hj, _, rfl⟩ := (mem_selectedIndices cmds q x).1 hx1
  exact ⟨cmds, h1, by omega, by omega⟩

theorem reach_invariant (grow : Nat → Nat) (scrollTo : ListPosition → Int → ListPosition)
    (b : Bool) (pl : CommandPalette A) (h : Reach grow scrollTo b pl) :
    -1 ≤ pl.active ∧ (b = true → pl.active < max 1 (pl.filtered.len : Int)) ∧
      FilteredInRange pl := by
  induction h with
  | fresh =>
    refine ⟨by simp [fresh], by simp, ?_⟩
    intro x hx
    simp [fresh, IntSlice.nil, IntSlice.toList] at hx
  | set cmds _ hset ih =>
    obtain ⟨h1, h2⟩ := filter_inRange grow _ _ _ hset
    exact ⟨by rw [h2]; exact ih.1, by simp, h1⟩
  | change q _ hf ih =>
    obtain ⟨h1, h2⟩ := filter_inRange grow _ _ _ hf
    exact ⟨by rw [h2]; exact ih.1, by simp, h1⟩
  | @clamp b pl _ ih =>
    have h0 := ih.1
    have h3 := ih.2.2
    unfold clampActive
    by_cases hgt : pl.active > (pl.filtered.len : Int) - 1
    · simp only [hgt, if_true]
      exact ⟨by omega, fun _ => by omega, h3⟩
    · simp only [hgt, if_false]
      exact ⟨h0, fun _ => by omega, h3⟩
  | @key b pl ev _ ih =>
    obtain ⟨h0, h1, h2⟩ := ih
    obtain ⟨e1, e2, _, e4⟩ := handleKey_cases scrollTo pl ev
    refine ⟨?_, ?_, ?_⟩
    · rcases e4 with e | e | e <;> rw [e]
      · exact h0
      · unfold activeAfterUp; split_ifs <;> omega
      · unfold activeAfterDown; split_ifs <;> omega
    · intro hb
      have h1b := h1 hb
      rw [e1]
      rcases e4 with e | e | e <;> rw [e]
      · exact h1b
      · unfold activeAfterUp; split_ifs <;> omega
      · unfold activeAfterDown; split_ifs <;> omega
    · intro x hx
      rw [e1] at hx
      rw [e2]
      exact h2 x hx
  | @hover b pl index _ h1 h2 ih =>
    refine ⟨?_, fun _ => ?_, ih.2.2⟩
    · show (-1 : Int) ≤ index
      omega
    · show index < max 1 (pl.filtered.len : Int)
      omega
  | relayout l _ ih => exact ih

end CommandPalette

/-! ## The scenario, step by step -/

theorem set_scenario : CommandPalette.Set id CommandPalette.fresh
    (CommandSlice.toProvider (scenarioCmds id)) = some scenarioPalette := rfl

theorem change_scenario : CommandPalette.filter id
    { scenarioPalette with editorText := "zzz".toList } "zzz".toList = some emptiedPalette := rfl

theorem reach_scenarioPalette : CommandPalette.Reach id scrollFirst false scenarioPalette :=
  CommandPalette.Reach.set _ CommandPalette.Reach.fresh set_scenario

theorem reach_emptiedPalette : CommandPalette.Reach id scrollFirst true emptiedPalette :=
  CommandPalette.Reach.clamp
    (CommandPalette.Reach.change "zzz".toList reach_scenarioPalette change_scenario)

/-! ## Lemmas on the provider that joins providers -/

theorem filterMap_range_of_isSome {B : Type} (f : Nat → Option B) (n : Nat)
    (h : ∀ i : Nat, i < n → (f i).isSome = true) :
    ((List.range n).filterMap f).length = n ∧
      ∀ i : Nat, i < n → ((List.range n).filterMap f)[i]? = f i := by
  induction n with
  | zero => exact ⟨rfl, fun i hi => absurd hi (Nat.not_lt_zero i)⟩
  | succ n ih =>
    obtain ⟨h1, h2⟩ := ih (fun i hi => h i (Nat.lt_succ_of_lt hi))
    obtain ⟨c, hc⟩ := Option.isSome_iff_exists.1 (h n (Nat.lt_succ_self n))
    have hstep : (List.range (n + 1)).filterMap f = (List.range n).filterMap f ++ [c] := by
      rw [List.range_succ, List.filterMap_append]
      simp [List.filterMap_cons, hc]
    rw [hstep]
    refine ⟨by simp [h1], ?_⟩
    intro i hi
    by_cases hin : i < n
    · rw [List.getElem?_append_left (by rw [h1]; exact hin)]
      exact h2 i hin
    · have hieq : i = n := by omega
      subst hieq
      rw [List.getElem?_append_right (by rw [h1]), h1]
      simp [hc]

theorem CommandProvider.commands_spec {A : Type} (p : CommandProvider A) (h : p.WellFormed) :
    p.commands.length = p.Len ∧ ∀ i : Nat, i < p.Len → p.commands[i]? = p.At (i : Int) := by
  unfold CommandProvider.commands
  exact filterMap_range_of_isSome (fun i => p.At (i : Int)) p.Len h

theorem offsetOf_zero {A : Type} (ps : List (CommandProvider A)) : offsetOf ps 0 = 0 := by
  simp [offsetOf]

theorem offsetOf_cons_succ {A : Type} (p : CommandProvider A) (ps : List (CommandProvider A))
    (k : Nat) : offsetOf (p :: ps) (k + 1) = p.Len + offsetOf ps k := by
  simp [offsetOf]

theorem offsetOf_succ {A : Type} (ps : List (CommandProvider A)) (k : Nat)
    (hk : k < ps.length) : offsetOf ps (k + 1) = offsetOf ps k + (ps[k]).Len := by
  induction ps generalizing k with
  | nil => simp at hk
  | cons p ps ih =>
    cases k with
    | zero => simp [offsetOf]
    | succ k =>
      have hk1 : k < ps.length := by simpa using hk
      rw [offsetOf_cons_succ, offsetOf_cons_succ, ih k hk1]
      simp [Nat.add_assoc]

theorem offsetOf_mono {A : Type} (ps : List (CommandProvider A)) (j k : Nat) (hjk : j ≤ k)
    (hk : k ≤ ps.length) : offsetOf ps j ≤ offsetOf ps k := by
  induction k with
  | zero =>
    have : j = 0 := by omega
    subst this
    exact Nat.le_refl _
  | succ k ih =>
    by_cases hj : j = k + 1
    · subst hj
      exact Nat.le_refl _
    · have h1 := ih (by omega) (by omega)
      rw [offsetOf_succ ps k (by omega)]
      omega

namespace MultiCommandProvider

variable {A : Type}

theorem lenLoop_eq (ps : List (CommandProvider A)) (n : Nat) :
    lenLoop ps n = n + (ps.map fun p => p.Len).sum := by
  induction ps generalizing n with
  | nil => simp [lenLoop]
  | cons p ps ih => simp [lenLoop, ih, Nat.add_assoc]

theorem atLoop_spec (ps : List (CommandProvider A)) (hwf : ∀ p ∈ ps, p.WellFormed) :
    ∀ idx : Int, 0 ≤ idx → idx < ((ps.map fun p => p.Len).sum : Nat) →
    ∃ (k : Nat) (hk : k < ps.length) (c : Command A),
      (offsetOf ps k : Int) ≤ idx ∧ idx < (offsetOf ps k : Int) + ((ps[k]).Len : Int) ∧
      atLoop ps idx = (ps[k]).At (idx - (offsetOf ps k : Int)) ∧
      atLoop ps idx = some c ∧ (concatCommands ps)[idx.toNat]? = some c := by
  induction ps with
  | nil =>
    intro idx h0 h1
    simp at h1
    omega
  | cons p ps ih =>
    intro idx h0 h1
    have hp := hwf p (List.mem_cons_self _ _)
    obtain ⟨hlen, hget⟩ := p.commands_spec hp
    simp only [List.map_cons, List.sum_cons, Nat.cast_add] at h1
    by_cases hge : idx ≥ (p.Len : Int)
    · obtain ⟨k, hk, c, h2, h3, h4, h5, h6⟩ :=
        ih (fun q hq => hwf q (List.mem_cons_of_mem _ hq)) (idx - (p.Len : Int)) (by omega)
          (by omega)
      refine ⟨k + 1, by simpa using hk, c, ?_, ?_, ?_, ?_, ?_⟩
      · rw [offsetOf_cons_succ]; push_cast; omega
      · rw [offsetOf_cons_succ]; simp only [List.getElem_cons_succ]; push_cast; omega
      · rw [offsetOf_cons_succ]
        simp only [atLoop, hge, if_true, List.getElem_cons_succ]
        rw [h4]
        congr 1
        push_cast
        omega
      · simp only [atLoop, hge, if_true]
        exact h5
      · have hnat : idx.toNat = p.Len + (idx - (p.Len : Int)).toNat := by omega
        show (p.commands ++ concatCommands ps)[idx.toNat]? = some c
        rw [List.getElem?_append_right (by rw [hlen]; omega), hlen, hnat,
          Nat.add_sub_cancel_left]
        exact h6
    · have hlt : idx.toNat < p.Len := by omega
      obtain ⟨c, hc⟩ := Option.isSome_iff_exists.1 (hp idx.toNat hlt)
      have hcast : ((idx.toNat : Nat) : Int) = idx := Int.toNat_of_nonneg h0
      rw [hcast] at hc
      refine ⟨0, by simp, c, ?_, ?_, ?_, ?_, ?_⟩
      · simp [offsetOf_zero, h0]
      · simp only [offsetOf_zero, List.getElem_cons_zero]; push_cast; omega
      · simp [atLoop, hge, offsetOf_zero]
      · simp [atLoop, hge, hc]
      · show (p.commands ++ concatCommands ps)[idx.toNat]? = some c
        rw [List.getElem?_append_left (by rw [hlen]; exact hlt), hget _ hlt, hcast]
        exact hc

end MultiCommandProvider

/-- Every `MultiCommandProvider` over providers that answer `At` on their range
answers `At` on its own range. -/
theorem MultiCommandProvider.joined_wellFormed {A : Type} (mcp : MultiCommandProvider A)
    (hwf : ∀ p ∈ mcp.Providers, p.WellFormed) : mcp.toProvider.WellFormed := by
  intro i hi
  have hlen : mcp.Len = (mcp.Providers.map fun p => p.Len).sum := by
    unfold MultiCommandProvider.Len
    rw [MultiCommandProvider.lenLoop_eq, Nat.zero_add]
  have hi1 : i < mcp.Len := hi
  obtain ⟨_, _, c, _, _, _, h, _⟩ := MultiCommandProvider.atLoop_spec mcp.Providers hwf (i : Int)
    (by omega) (by rw [← hlen]; exact_mod_cast hi1)
  show (MultiCommandProvider.atLoop mcp.Providers (i : Int)).isSome = true
  rw [h]
  rfl

/-! ## Lemmas on `strconv`  -/

theorem decimalValueFrom_ge (s : GoString) : ∀ n : Nat, n ≤ decimalValueFrom n s := by
  induction s with
  | nil => intro n; exact Nat.le_refl _
  | cons c s ih =>
    intro n
    have h := ih (n * 10 + digitValue c)
    show n ≤ decimalValueFrom (n * 10 + digitValue c) s
    omega

theorem parseUintLoop_cons (maxVal : Nat) (c : Char) (s : GoString) (n : Nat) :
    parseUintLoop maxVal (c :: s) n =
      if IsDecimalDigit c then
        if n * 10 + digitValue c > maxVal then (maxVal, some ParseError.ErrRange)
        else parseUintLoop maxVal s (n * 10 + digitValue c)
      else (0, some ParseError.ErrSyntax) := rfl

theorem parseUintLoop_complete (maxVal : Nat) (s : GoString) :
    ∀ n : Nat, (∀ c ∈ s, IsDecimalDigit c) → decimalValueFrom n s ≤ maxVal →
      parseUintLoop maxVal s n = (decimalValueFrom n s, none) := by
  induction s with
  | nil => intro n _ _; rfl
  | cons c s ih =>
    intro n hd hle
    have hc : IsDecimalDigit c := hd c (List.mem_cons_self _ _)
    have hge := decimalValueFrom_ge s (n * 10 + digitValue c)
    have hle1 : decimalValueFrom (n * 10 + digitValue c) s ≤ maxVal := hle
    have hn1 : ¬ n * 10 + digitValue c > maxVal := by omega
    rw [parseUintLoop_cons, if_pos hc, if_neg hn1]
    exact ih _ (fun d hd1 => hd d (List.mem_cons_of_mem _ hd1)) hle1

theorem parseUintLoop_sound (maxVal : Nat) (s : GoString) :
    ∀ n v : Nat, parseUintLoop maxVal s n = (v, none) →
      (∀ c ∈ s, IsDecimalDigit c) ∧ v = decimalValueFrom n s := by
  induction s with
  | nil =>
    intro n v h
    simp only [parseUintLoop, Prod.mk.injEq, and_true] at h
    exact ⟨by simp, h.symm⟩
  | cons c s ih =>
    intro n v h
    rw [parseUintLoop_cons] at h
    by_cases hc : IsDecimalDigit c
    · rw [if_pos hc] at h
      by_cases hn1 : n * 10 + digitValue c > maxVal
      · rw [if_pos hn1] at h
        simp at h
      · rw [if_neg hn1] at h
        obtain ⟨h1, h2⟩ := ih _ v h
        refine ⟨?_, h2⟩
        intro d hd
        rcases List.mem_cons.1 hd with rfl | hd
        · exact hc
        · exact h1 d hd
    · rw [if_neg hc] at h
      simp at h

theorem strconvParseUint_sound (s : GoString) (bitSize v : Nat)
    (h : strconvParseUint s bitSize = (v, none)) :
    s ≠ [] ∧ (∀ c ∈ s, IsDecimalDigit c) ∧ v = decimalValueFrom 0 s := by
  unfold strconvParseUint at h
  by_cases hs : s = []
  · rw [if_pos hs] at h
    simp at h
  · rw [if_neg hs] at h
    exact ⟨hs, parseUintLoop_sound _ s 0 v h⟩

theorem strconvParseUint_complete (s : GoString) (bitSize : Nat) (hs : s ≠ [])
    (hd : ∀ c ∈ s, IsDecimalDigit c) (hle : decimalValueFrom 0 s ≤ 2 ^ bitSize - 1) :
    strconvParseUint s bitSize = (decimalValueFrom 0 s, none) := by
  unfold strconvParseUint
  rw [if_neg hs]
  exact parseUintLoop_complete _ s 0 hd hle

theorem plus_not_digit : ¬ IsDecimalDigit '+' := by decide

theorem minus_not_digit : ¬ IsDecimalDigit '-' := by decide

theorem parseUintLoop_range (maxVal : Nat) (s : GoString) :
    ∀ n v : Nat, parseUintLoop maxVal s n = (v, some ParseError.ErrRange) → v = maxVal := by
  induction s with
  | nil =>
    intro n v h
    simp [parseUintLoop] at h
  | cons c s ih =>
    intro n v h
    rw [parseUintLoop_cons] at h
    by_cases hc : IsDecimalDigit c
    · rw [if_pos hc] at h
      by_cases hn1 : n * 10 + digitValue c > maxVal
      · rw [if_pos hn1] at h
        exact (Prod.mk.inj h).1.symm
      · rw [if_neg hn1] at h
        exact ih _ v h
    · rw [if_neg hc] at h
      simp at h

theorem parseIntSigned_sound (neg : Bool) (ds : GoString) (n : Int)
    (h : parseIntSigned neg ds 32 = (n, none)) :
    ds ≠ [] ∧ (∀ c ∈ ds, IsDecimalDigit c) ∧
      n = if neg = true then -(decimalValueFrom 0 ds : Int) else (decimalValueFrom 0 ds : Int) := by
  unfold parseIntSigned at h
  dsimp only at h
  rcases hr : strconvParseUint ds 32 with ⟨v, e⟩
  rw [hr] at h
  dsimp only at h
  cases e with
  | none =>
    obtain ⟨h1, h2, h3⟩ := strconvParseUint_sound ds 32 v hr
    subst h3
    split_ifs at h <;> simp_all
  | some err =>
    cases err with
    | ErrSyntax => simp at h
    | ErrRange =>
      have hv : v = 2 ^ 32 - 1 := by
        unfold strconvParseUint at hr
        by_cases hs : ds = []
        · rw [if_pos hs] at hr
          simp at hr
        · rw [if_neg hs] at hr
          exact parseUintLoop_range _ ds 0 v hr
      subst hv
      cases neg <;> simp at h

theorem parseIntSigned_complete (ds : GoString) (hs : ds ≠ [])
    (hd : ∀ c ∈ ds, IsDecimalDigit c) (hle : decimalValueFrom 0 ds < 2 ^ 31) :
    parseIntSigned false ds 32 = ((decimalValueFrom 0 ds : Int), none) := by
  unfold parseIntSigned
  dsimp only
  rw [strconvParseUint_complete ds 32 hs hd (by omega)]
  have h1 : ¬ decimalValueFrom 0 ds ≥ 2 ^ (32 - 1) := by
    have : (2 : Nat) ^ (32 - 1) = 2 ^ 31 := rfl
    omega
  rw [if_neg (by simp), if_neg (fun h => h1 h.2), if_neg (by simp), if_neg (by simp)]

theorem strconvParseInt_sound (text : GoString) (n : Int)
    (h : strconvParseInt text 32 = (n, none)) : DenotesInt text n := by
  cases text with
  | nil => simp [strconvParseInt] at h
  | cons c rest =>
    unfold strconvParseInt at h
    dsimp only at h
    by_cases hplus : c = '+'
    · rw [if_pos hplus] at h
      obtain ⟨h1, h2, h3⟩ := parseIntSigned_sound false rest n h
      exact ⟨rest, h1, h2, Or.inl ⟨Or.inr (by rw [hplus]), by simpa using h3⟩⟩
    · rw [if_neg hplus] at h
      by_cases hminus : c = '-'
      · rw [if_pos hminus] at h
        obtain ⟨h1, h2, h3⟩ := parseIntSigned_sound true rest n h
        exact ⟨rest, h1, h2, Or.inr ⟨by rw [hminus], by simpa using h3⟩⟩
      · rw [if_neg hminus] at h
        obtain ⟨h1, h2, h3⟩ := parseIntSigned_sound false (c :: rest) n h
        exact ⟨c :: rest, h1, h2, Or.inl ⟨Or.inl rfl, by simpa using h3⟩⟩

theorem strconvParseInt_complete (text : GoString) (n : Int) (h : DenotesInt text n)
    (h0 : 0 ≤ n) (h1 : n < 2 ^ 31) : strconvParseInt text 32 = (n, none) := by
  obtain ⟨ds, hne, hd, hform⟩ := h
  obtain ⟨c, rest, hds⟩ := List.exists_cons_of_ne_nil hne
  have hc : IsDecimalDigit c := hd c (by rw [hds]; exact List.mem_cons_self _ _)
  have hcp : ¬ c = '+' := fun e => plus_not_digit (e ▸ hc)
  have hcm : ¬ c = '-' := fun e => minus_not_digit (e ▸ hc)
  rcases hform with ⟨htext, hn⟩ | ⟨htext, hn⟩
  · have hlt : decimalValueFrom 0 ds < 2 ^ 31 := by
      have : ((decimalValueFrom 0 ds : Nat) : Int) < 2 ^ 31 := by rw [← hn]; exact h1
      exact_mod_cast this
    rcases htext with htext | htext
    · subst htext
      subst hds
      unfold strconvParseInt
      dsimp only
      rw [if_neg hcp, if_neg hcm, hn]
      exact parseIntSigned_complete _ hne hd hlt
    · subst htext
      unfold strconvParseInt
      dsimp only
      rw [if_pos rfl, hn]
      exact parseIntSigned_complete _ hne hd hlt
  · -- a negative numeral for a non-negative number is the numeral of zero
    have hz : decimalValueFrom 0 ds = 0 := by omega
    subst htext
    have hsu := strconvParseUint_complete ds 32 hne hd (by rw [hz]; exact Nat.zero_le _)
    unfold strconvParseInt
    dsimp only
    rw [if_neg (by decide), if_pos rfl]
    unfold parseIntSigned
    dsimp only
    rw [hsu, hn, hz]
    simp

/-! ## Lemmas on int64 arithmetic -/

theorem wrapInt64_add_left (a b : Int) : wrapInt64 (wrapInt64 a + b) = wrapInt64 (a + b) := by
  unfold wrapInt64
  omega

theorem wrapInt64_sub_left (a b : Int) : wrapInt64 (wrapInt64 a - b) = wrapInt64 (a - b) := by
  unfold wrapInt64
  omega

theorem wrapInt64_add_right (a b : Int) : wrapInt64 (a + wrapInt64 b) = wrapInt64 (a + b) := by
  unfold wrapInt64
  omega

theorem wrapInt64_of_range (a : Int) (h1 : -2 ^ 63 ≤ a) (h2 : a < 2 ^ 63) : wrapInt64 a = a := by
  unfold wrapInt64
  omega

/-! ## Lemmas on float32 -/

theorem floorLog2Loop_le (fuel : Nat) : ∀ n : Nat, 1 ≤ n → 2 ^ floorLog2Loop fuel n ≤ n := by
  induction fuel with
  | zero => intro n h; simpa [floorLog2Loop] using h
  | succ fuel ih =>
    intro n h
    unfold floorLog2Loop
    by_cases h2 : n ≥ 2
    · rw [if_pos h2, Nat.pow_succ]
      have h3 := ih (n / 2) (by omega)
      omega
    · rw [if_neg h2]
      simpa using h

theorem floorLog2_le (n : Nat) (h : 1 ≤ n) : 2 ^ floorLog2 n ≤ n :=
  floorLog2Loop_le n n h

namespace F32

theorem lastPlace_int_le (n : Nat) : lastPlace n 1 0 ≤ (floorLog2 n : Int) - 23 ∨
    lastPlace n 1 0 = -149 := by
  unfold lastPlace
  have h1 : floorLog2 1 = 0 := rfl
  simp only [h1]
  split_ifs <;> omega

theorem nearestEven_pos (n : Nat) (s : Int) (hn : 1 ≤ n)
    (hs : 0 ≤ s ∨ 2 ^ (-s).toNat ≤ n) : 1 ≤ nearestEven n 1 s := by
  unfold nearestEven
  dsimp only
  by_cases h0 : 0 ≤ s
  · simp only [h0, if_true, Nat.div_one]
    have h1 : n ≤ n * 2 ^ s.toNat := Nat.le_mul_of_pos_right n (Nat.two_pow_pos _)
    split_ifs <;> omega
  · simp only [h0, if_false, Nat.one_mul]
    have h1 : 1 ≤ n / 2 ^ (-s).toNat := by
      rcases hs with hs | hs
      · exact absurd hs h0
      · exact (Nat.one_le_div_iff (Nat.two_pow_pos _)).2 hs
    split_ifs <;> omega

theorem pack_of_pos (negative : Bool) (q : Nat) (u : Int) (hq : 1 ≤ q) :
    pack negative q u = inf negative ∨
      ∃ (m : Nat) (e : Int), 1 ≤ m ∧
        pack negative q u = finite (if negative then -(m : Int) else (m : Int)) e := by
  unfold pack
  dsimp only
  by_cases he : (if q = 2 ^ 24 then u + 1 else u) > 104
  · left
    rw [if_pos he]
  · right
    rw [if_neg he]
    have hm : 1 ≤ (if q = 2 ^ 24 then 2 ^ 23 else q) := by
      by_cases h24 : q = 2 ^ 24
      · rw [if_pos h24]
        decide
      · rw [if_neg h24]
        exact hq
    rw [if_neg (by omega)]
    exact ⟨_, _, hm, rfl⟩

/-- Converting a non-zero integer gives a non-zero number of the same sign. -/
theorem ofInt_of_ne_zero (x : Int) (hx : x ≠ 0) :
    ofInt x = inf (decide (x < 0)) ∨
      ∃ (m e : Int), m ≠ 0 ∧ decide (m < 0) = decide (x < 0) ∧ ofInt x = finite m e := by
  have hn : 1 ≤ x.natAbs := by omega
  have hn0 : ¬ x.natAbs = 0 := by omega
  have hlog := floorLog2_le x.natAbs hn
  have hq : 1 ≤ nearestEven x.natAbs 1 (0 - lastPlace x.natAbs 1 0) := by
    apply nearestEven_pos _ _ hn
    rcases lastPlace_int_le x.natAbs with h | h
    · by_cases h0 : 0 ≤ 0 - lastPlace x.natAbs 1 0
      · exact Or.inl h0
      · right
        have hle : (-(0 - lastPlace x.natAbs 1 0)).toNat ≤ floorLog2 x.natAbs := by omega
        exact Nat.le_trans (Nat.pow_le_pow_right (by decide) hle) hlog
    · left
      omega
  unfold ofInt round
  rw [if_neg hn0]
  rcases pack_of_pos (decide (x < 0)) _ (lastPlace x.natAbs 1 0) hq with h | ⟨m, e, hm, h⟩
  · exact Or.inl h
  · right
    rw [h]
    refine ⟨_, e, ?_, ?_, rfl⟩
    · split_ifs <;> omega
    · by_cases hneg : x < 0
      · simp only [hneg, decide_True, if_true]
        simp
        omega
      · simp only [hneg, decide_False]
        simp

/-- In float32, a percentage of a zero total: the quotient by zero is NaN for
a zero part and an infinity of the part's sign otherwise, and stays so when
multiplied by 100. -/
theorem percent_of_zero (x : Int) :
    mul (div (ofInt x) (ofInt 0)) (ofInt 100) =
      if x = 0 then nan else inf (decide (x < 0)) := by
  have h0 : ofInt 0 = finite 0 0 := by decide
  have h100 : ofInt 100 = finite 13107200 (-17) := by decide
  by_cases hx : x = 0
  · subst hx
    rw [if_pos rfl, h0, h100]
    decide
  · rw [if_neg hx, h0, h100]
    rcases ofInt_of_ne_zero x hx with h | ⟨m, e, hm, hs, h⟩
    · rw [h]
      simp [div, mul]
    · rw [h]
      simp [div, mul, hm, hs]

end F32

/-! ## Lemmas on the machine tooltip -/

namespace MachineTooltip

variable {Proc Gor : Type}

theorem spanLoop_spec (tr : Trace Proc Gor) (spans : List Span) :
    ∀ a b : Int, (∀ s ∈ spans, tr.isProcStart s = true ∨ tr.isGoSysBlock s = true) →
      spanLoop tr spans (wrapInt64 a) (wrapInt64 b) =
        some (wrapInt64 (a + totalDuration (spans.filter tr.isProcStart)),
          wrapInt64 (b + totalDuration (spans.filter tr.isGoSysBlock))) := by
  induction spans with
  | nil =>
    intro a b _
    simp [spanLoop, totalDuration]
  | cons s rest ih =>
    intro a b h
    have hrest : ∀ x ∈ rest, tr.isProcStart x = true ∨ tr.isGoSysBlock x = true :=
      fun x hx => h x (List.mem_cons_of_mem _ hx)
    have hs := h s (List.mem_cons_self _ _)
    cases hev : tr.eventAt s.Event with
    | none => simp [Trace.isProcStart, Trace.isGoSysBlock, hev] at hs
    | some ev =>
      cases hty : ev.Typ with
      | EvProcStart =>
        have h1 : tr.isProcStart s = true := by simp [Trace.isProcStart, hev, hty]
        have h2 : tr.isGoSysBlock s = false := by simp [Trace.isGoSysBlock, hev, hty]
        simp only [spanLoop, hev, hty, wrapInt64_add_left, List.filter_cons, h1, h2, if_true]
        rw [ih (a + s.Duration) b hrest]
        simp [totalDuration, Int.add_assoc]
      | EvGoSysBlock =>
        have h1 : tr.isProcStart s = false := by simp [Trace.isProcStart, hev, hty]
        have h2 : tr.isGoSysBlock s = true := by simp [Trace.isGoSysBlock, hev, hty]
        simp only [spanLoop, hev, hty, wrapInt64_add_left, List.filter_cons, h1, h2, if_true]
        rw [ih a (b + s.Duration) hrest]
        simp [totalDuration, Int.add_assoc]
      | other code =>
        simp [Trace.isProcStart, Trace.isGoSysBlock, hev, hty] at hs

theorem layout_spec (m : Machine) (tr : Trace Proc Gor) (h : MachineSpansTyped m tr) :
    Layout m tr = some
      { ID := m.ID
        spans := m.Spans.length
        procD := wrapInt64 (totalDuration (m.Spans.filter tr.isProcStart))
        procPct := percent (wrapInt64 (totalDuration (m.Spans.filter tr.isProcStart))) tr.End
        syscallD := wrapInt64 (totalDuration (m.Spans.filter tr.isGoSysBlock))
        syscallPct :=
          percent (wrapInt64 (totalDuration (m.Spans.filter tr.isGoSysBlock))) tr.End
        inactiveD :=
          wrapInt64 (wrapInt64 (tr.End -
            wrapInt64 (totalDuration (m.Spans.filter tr.isProcStart))) -
            wrapInt64 (totalDuration (m.Spans.filter tr.isGoSysBlock)))
        inactivePct :=
          percent (wrapInt64 (wrapInt64 (tr.End -
            wrapInt64 (totalDuration (m.Spans.filter tr.isProcStart))) -
            wrapInt64 (totalDuration (m.Spans.filter tr.isGoSysBlock)))) tr.End } := by
  have h0 : wrapInt64 0 = 0 := by decide
  have hloop := spanLoop_spec tr m.Spans 0 0 h
  rw [h0] at hloop
  simp only [Layout, hloop, Option.map_some', Int.zero_add, percent]

end MachineTooltip

theorem wrapInt64_total (p s d : Int) :
    wrapInt64 (wrapInt64 (wrapInt64 p + wrapInt64 s) +
      wrapInt64 (wrapInt64 (d - wrapInt64 p) - wrapInt64 s)) = wrapInt64 d := by
  unfold wrapInt64
  omega

/-! ## Lemmas on the histogram -/

namespace InteractiveHistogram

variable {D H : Type}

theorem superseded_set_set (newHistogram : D → H) (hist : InteractiveHistogram H)
    (data1 data2 : D) :
    Superseded (newHistogram data2) (newHistogram data1)
      (Set newHistogram (Set newHistogram hist data1) data2) :=
  ⟨⟨_, rfl, rfl, rfl⟩, ⟨NewFuture (newHistogram data1), by simp [Set], rfl, rfl⟩⟩

theorem superseded_finishes (v w : H) (a b : InteractiveHistogram H) (h : Superseded v w a)
    (hs : Finishes a b) : Superseded v w b := by
  obtain ⟨⟨ft, h1, h2, h3⟩, ⟨gt, h4, h5, h6⟩⟩ := h
  cases hs with
  | current ft1 hw =>
    rw [h1] at hw
    cases hw
    exact ⟨⟨_, rfl, h2, h3⟩, ⟨gt, h4, h5, h6⟩⟩
  | dropped before after ft1 hd =>
    refine ⟨⟨ft, h1, h2, h3⟩, ?_⟩
    rw [hd] at h4
    rcases List.mem_append.1 h4 with hb | ha
    · exact ⟨gt, List.mem_append_left _ hb, h5, h6⟩
    · rcases List.mem_cons.1 ha with he | ha1
      · subst he
        exact ⟨{ gt with ready := true }, by simp, h5, h6⟩
      · exact ⟨gt, List.mem_append_right _ (List.mem_cons_of_mem _ ha1), h5, h6⟩

theorem superseded_later (v w : H) (a b : InteractiveHistogram H) (h : Superseded v w a)
    (hl : Later a b) : Superseded v w b := by
  induction hl with
  | now => exact h
  | step _ hs ih => exact superseded_finishes v w _ _ ih hs

end InteractiveHistogram

/-! ## Theorems -/

/-- C1: for every NormalCommand and every query, Filter is true exactly when
every term of the query (strings.Fields) is, lower-cased, a substring of the
lower-cased primary label, secondary label or category, or of at least one
lower-cased alias; and of the commands "Open file", "Close file", "Save as" the
query "file" matches exactly the first two. -/
theorem NormalCommand.Filter_iff_every_term_found :
    (∀ (A : Type) (caseTable : Char → Char) (cmd : NormalCommand A) (q : GoString),
      cmd.Filter caseTable q = true ↔ ∀ t ∈ stringsFields q, TermFound caseTable cmd t) ∧
    (∀ caseTable : Char → Char,
      (labelled "Open file").Filter caseTable "file".toList = true ∧
      (labelled "Close file").Filter caseTable "file".toList = true ∧
      (labelled "Save as").Filter caseTable "file".toList = false) :=
  ⟨fun _ caseTable cmd q => NormalCommand.filterLoop_iff caseTable cmd (stringsFields q),
    fun _ => ⟨rfl, rfl, rfl⟩⟩

/-- C2: for every provider with n commands, filter with the empty query sets
filtered to exactly 0, 1, ..., n-1, whatever the commands answer to Filter and
whatever filtered held before; and NormalCommand.Filter is true for the empty
query and for every query made only of white space. -/
theorem CommandPalette.filter_empty_query_selects_all {A B : Type} (grow : Nat → Nat)
    (caseTable : Char → Char) (pl : CommandPalette A) (cmds : CommandProvider A)
    (cmd : NormalCommand B) (q : GoString) (hc : pl.cmds = some cmds)
    (hq : ∀ r ∈ q, unicodeIsSpace r = true) :
    (∃ pl1, CommandPalette.filter grow pl [] = some pl1 ∧
      pl1.filtered.toList = indices cmds.Len) ∧
    cmd.Filter caseTable [] = true ∧ cmd.Filter caseTable q = true := by
  refine ⟨?_, rfl, ?_⟩
  · obtain ⟨s1, h1, h2⟩ := CommandPalette.filter_result grow pl cmds [] hc (fun h => absurd rfl h)
    exact ⟨_, h1, by rw [← CommandPalette.selectedIndices_nil]; exact h2⟩
  · unfold NormalCommand.Filter stringsFields
    rw [stringsFieldsAux_of_space q hq]
    rfl

/-- Witness of C2: the scenario commands behind a palette with stale filtered
contents, and the query made of two spaces and a tab. -/
theorem CommandPalette.filter_empty_query_selects_all_witness :
    (stalePalette.cmds = some (CommandSlice.toProvider (scenarioCmds id)) ∧
      ∀ r ∈ [' ', ' ', '\t'], unicodeIsSpace r = true) ∧
    ((∃ pl1, CommandPalette.filter id stalePalette [] = some pl1 ∧
      pl1.filtered.toList = indices (CommandSlice.toProvider (scenarioCmds id)).Len) ∧
    (labelled "Save as").Filter id [] = true ∧
    (labelled "Save as").Filter id [' ', ' ', '\t'] = true) :=
  ⟨⟨rfl, by decide⟩,
    CommandPalette.filter_empty_query_selects_all id id stalePalette
      (CommandSlice.toProvider (scenarioCmds id)) (labelled "Save as") [' ', ' ', '\t'] rfl
      (by decide)⟩

/-- C3: after filter(q), and hence after Set, filtered is a strictly increasing
sequence of indices in [0, cmds.Len()), it holds index i exactly when q is empty
or cmds.At(i).Filter(q) is true, and every filtered[k] is a valid argument
to cmds.At. -/
theorem CommandPalette.filter_selects {A : Type} (grow : Nat → Nat) (pl pl0 : CommandPalette A)
    (cmds : CommandProvider A) (q : GoString) (hc : pl.cmds = some cmds)
    (hwf : cmds.WellFormed) :
    (∃ pl1, CommandPalette.filter grow pl q = some pl1 ∧
      CommandPalette.Selects cmds q pl1.filtered.toList ∧
      CommandPalette.ValidLookups cmds pl1.filtered) ∧
    (∃ pl1, CommandPalette.Set grow pl0 cmds = some pl1 ∧
      CommandPalette.Selects cmds pl0.editorText pl1.filtered.toList ∧
      CommandPalette.ValidLookups cmds pl1.filtered) :=
  ⟨CommandPalette.filter_outcome grow pl cmds q hc hwf,
    CommandPalette.filter_outcome grow { pl0 with cmds := some cmds } cmds pl0.editorText rfl hwf⟩

/-- Witness of C3: the scenario commands and the query "file". -/
theorem CommandPalette.filter_selects_witness :
    (stalePalette.cmds = some (CommandSlice.toProvider (scenarioCmds id)) ∧
      (CommandSlice.toProvider (scenarioCmds id)).WellFormed) ∧
    ((∃ pl1, CommandPalette.filter id stalePalette "file".toList = some pl1 ∧
      CommandPalette.Selects (CommandSlice.toProvider (scenarioCmds id)) "file".toList
        pl1.filtered.toList ∧
      CommandPalette.ValidLookups (CommandSlice.toProvider (scenarioCmds id)) pl1.filtered) ∧
    (∃ pl1, CommandPalette.Set id CommandPalette.fresh
        (CommandSlice.toProvider (scenarioCmds id)) = some pl1 ∧
      CommandPalette.Selects (CommandSlice.toProvider (scenarioCmds id))
        (CommandPalette.fresh : CommandPalette Unit).editorText pl1.filtered.toList ∧
      CommandPalette.ValidLookups (CommandSlice.toProvider (scenarioCmds id)) pl1.filtered)) :=
  ⟨⟨rfl, CommandSlice.wellFormed _⟩,
    CommandPalette.filter_selects id stalePalette CommandPalette.fresh
      (CommandSlice.toProvider (scenarioCmds id)) "file".toList rfl (CommandSlice.wellFormed _)⟩

/-- C4: filtering is idempotent. For every command list cs and query q, filter(q)
succeeds, every index it selects yields a command, and filtering the list sel of
the selected commands again with q selects all of them in order: the second
filtered list is 0, ..., m-1 with m the size of the first result. -/
theorem CommandPalette.filter_idempotent {A : Type} (grow : Nat → Nat) (cs : CommandSlice A)
    (q : GoString) (pl : CommandPalette A) (hc : pl.cmds = some (CommandSlice.toProvider cs)) :
    ∃ pl1 sel, CommandPalette.filter grow pl q = some pl1 ∧
      List.map (CommandSlice.toProvider cs).At pl1.filtered.toList = List.map some sel ∧
      ∀ pl2 : CommandPalette A, pl2.cmds = some (CommandSlice.toProvider sel) →
        ∃ pl3, CommandPalette.filter grow pl2 q = some pl3 ∧
          pl3.filtered.toList = indices pl1.filtered.len := by
  obtain ⟨s1, h1, h2⟩ := CommandPalette.filter_result grow pl _ q hc
    (fun _ => CommandSlice.wellFormed cs)
  have hall : ∀ x ∈ s1.toList, ∃ c, (CommandSlice.toProvider cs).At x = some c ∧
      (q = [] ∨ c.Filter q = true) := by
    intro x hx
    rw [h2] at hx
    obtain ⟨j, hj, hacc, rfl⟩ := (CommandPalette.mem_selectedIndices _ q x).1 hx
    obtain ⟨c, hcj⟩ := Option.isSome_iff_exists.1 (CommandSlice.wellFormed cs j hj)
    refine ⟨c, hcj, ?_⟩
    rcases hacc with hq | hacc
    · exact Or.inl hq
    · obtain ⟨d, hd, hf⟩ := (CommandPalette.accepts_iff _ q j).1 hacc
      rw [hcj] at hd
      cases hd
      exact Or.inr hf
  obtain ⟨sel, hsel, hP⟩ := CommandPalette.lookups_lift (CommandSlice.toProvider cs)
    (fun c => q = [] ∨ c.Filter q = true) s1.toList hall
  have hlen : List.length sel = s1.len := by
    have h3 := congrArg List.length hsel
    simp only [List.length_map, IntSlice.toList_length] at h3
    exact h3.symm
  refine ⟨_, sel, h1, hsel, ?_⟩
  intro pl2 hc2
  obtain ⟨s3, h4, h5⟩ := CommandPalette.filter_result grow pl2 _ q hc2
    (fun _ => CommandSlice.wellFormed sel)
  refine ⟨_, h4, ?_⟩
  show s3.toList = indices s1.len
  rw [h5, CommandPalette.selectedIndices_of_all sel q hP, hlen]

/-- Witness of C4: the scenario commands filtered with "file", twice. -/
theorem CommandPalette.filter_idempotent_witness :
    stalePalette.cmds = some (CommandSlice.toProvider (scenarioCmds id)) ∧
    ∃ pl1 sel, CommandPalette.filter id stalePalette "file".toList = some pl1 ∧
      List.map (CommandSlice.toProvider (scenarioCmds id)).At pl1.filtered.toList =
        List.map some sel ∧
      ∀ pl2 : CommandPalette Unit, pl2.cmds = some (CommandSlice.toProvider sel) →
        ∃ pl3, CommandPalette.filter id pl2 "file".toList = some pl3 ∧
          pl3.filtered.toList = indices pl1.filtered.len :=
  ⟨rfl, CommandPalette.filter_idempotent id (scenarioCmds id) "file".toList stalePalette rfl⟩

/-- C5, as stated, fails: the state reached from the zero palette by Set with
the scenario commands, the query change to "zzz" and the clamp has an empty
filtered and active = 0, which is not below len(filtered). -/
theorem CommandPalette.active_in_range_counterexample :
    CommandPalette.Reach id scrollFirst true emptiedPalette ∧
    emptiedPalette.filtered.toList = [] ∧
    ¬ (-1 ≤ emptiedPalette.active ∧
      emptiedPalette.active < (emptiedPalette.filtered.len : Int)) :=
  ⟨reach_emptiedPalette, rfl, by decide⟩

/-- C5, amended: in every state reachable from the zero palette by Set, query
changes, the clamp and key presses (and the pointer moving over a listed row),
active is at least -1; and once the clamp has run after the last Set or query
change, active is below max(1, len(filtered)), so it is -1 or a valid index when
filtered is not empty and -1 or 0 when it is empty. -/
theorem CommandPalette.active_bounds {A : Type} (grow : Nat → Nat)
    (scrollTo : ListPosition → Int → ListPosition) (b : Bool) (pl : CommandPalette A)
    (h : CommandPalette.Reach grow scrollTo b pl) :
    -1 ≤ pl.active ∧ (b = true → pl.active < max 1 (pl.filtered.len : Int)) :=
  ⟨(CommandPalette.reach_invariant grow scrollTo b pl h).1,
    (CommandPalette.reach_invariant grow scrollTo b pl h).2.1⟩

/-- Witness of the amended C5: the emptied scenario palette. -/
theorem CommandPalette.active_bounds_witness :
    CommandPalette.Reach id scrollFirst true emptiedPalette ∧
    (-1 ≤ emptiedPalette.active ∧
      (true = true → emptiedPalette.active < max 1 (emptiedPalette.filtered.len : Int))) :=
  ⟨reach_emptiedPalette,
    CommandPalette.active_bounds id scrollFirst true emptiedPalette reach_emptiedPalette⟩

/-- C6: with len(filtered) > 0 and active equal to -1 or a valid index, an
unmodified Down press sets active to (active + 1) mod len(filtered), and leaves
filtered as it was. -/
theorem CommandPalette.handleKey_down {A : Type}
    (scrollTo : ListPosition → Int → ListPosition) (pl : CommandPalette A)
    (hlen : 0 < pl.filtered.len)
    (hact : pl.active = -1 ∨ (0 ≤ pl.active ∧ pl.active < (pl.filtered.len : Int))) :
    (CommandPalette.handleKey scrollTo pl CommandPalette.pressDown).active =
      (pl.active + 1) % (pl.filtered.len : Int) ∧
    (CommandPalette.handleKey scrollTo pl CommandPalette.pressDown).filtered = pl.filtered := by
  refine ⟨?_, (CommandPalette.handleKey_cases scrollTo pl _).1⟩
  rw [CommandPalette.handleKey_pressDown]
  unfold CommandPalette.activeAfterDown
  have hpos : (0 : Int) < (pl.filtered.len : Int) := by omega
  rcases hact with h | ⟨h1, h2⟩
  · have hlt : ¬ pl.active + 1 ≥ (pl.filtered.len : Int) := by omega
    rw [if_neg hlt, h]
    exact (Int.emod_eq_of_lt (by omega) (by omega)).symm
  · by_cases hge : pl.active + 1 ≥ (pl.filtered.len : Int)
    · have heq : pl.active + 1 = (pl.filtered.len : Int) := by omega
      rw [if_pos hge, heq, Int.emod_self]
    · rw [if_neg hge]
      exact (Int.emod_eq_of_lt (by omega) (by omega)).symm

/-- Witness of C6: Down on the last row of the scenario palette. -/
theorem CommandPalette.handleKey_down_witness :
    (0 < ({ scenarioPalette with active := 2 } : CommandPalette Unit).filtered.len ∧
      (({ scenarioPalette with active := 2 } : CommandPalette Unit).active = -1 ∨
        (0 ≤ ({ scenarioPalette with active := 2 } : CommandPalette Unit).active ∧
          ({ scenarioPalette with active := 2 } : CommandPalette Unit).active <
            (({ scenarioPalette with active := 2 } : CommandPalette Unit).filtered.len : Int)))) ∧
    ((CommandPalette.handleKey scrollFirst { scenarioPalette with active := 2 }
        CommandPalette.pressDown).active =
      (({ scenarioPalette with active := 2 } : CommandPalette Unit).active + 1) %
        (({ scenarioPalette with active := 2 } : CommandPalette Unit).filtered.len : Int) ∧
    (CommandPalette.handleKey scrollFirst { scenarioPalette with active := 2 }
        CommandPalette.pressDown).filtered =
      ({ scenarioPalette with active := 2 } : CommandPalette Unit).filtered) :=
  ⟨⟨by decide, by decide⟩,
    CommandPalette.handleKey_down scrollFirst { scenarioPalette with active := 2 }
      (by decide) (by decide)⟩

/-- C7, as stated, fails at active = -1: with three rows listed an unmodified Up
press from active = -1 gives active = 2, the last row, while
(active - 1 + len(filtered)) mod len(filtered) is 1. -/
theorem CommandPalette.handleKey_up_counterexample :
    0 < ({ scenarioPalette with active := -1 } : CommandPalette Unit).filtered.len ∧
    ({ scenarioPalette with active := -1 } : CommandPalette Unit).active = -1 ∧
    (CommandPalette.handleKey scrollFirst { scenarioPalette with active := -1 }
      CommandPalette.pressUp).active = 2 ∧
    (({ scenarioPalette with active := -1 } : CommandPalette Unit).active - 1 +
      (({ scenarioPalette with active := -1 } : CommandPalette Unit).filtered.len : Int)) %
      (({ scenarioPalette with active := -1 } : CommandPalette Unit).filtered.len : Int) = 1 ∧
    (CommandPalette.handleKey scrollFirst { scenarioPalette with active := -1 }
      CommandPalette.pressUp).active ≠
    (({ scenarioPalette with active := -1 } : CommandPalette Unit).active - 1 +
      (({ scenarioPalette with active := -1 } : CommandPalette Unit).filtered.len : Int)) %
      (({ scenarioPalette with active := -1 } : CommandPalette Unit).filtered.len : Int) := by
  decide

/-- C7, amended: with len(filtered) > 0, an unmodified Up press from a valid
index sets active to (active - 1 + len(filtered)) mod len(filtered), wrapping
from the first row to the last; from active = -1 it sets active to
len(filtered) - 1, the last row. Filtered is left as it was. -/
theorem CommandPalette.handleKey_up {A : Type}
    (scrollTo : ListPosition → Int → ListPosition) (pl : CommandPalette A)
    (hlen : 0 < pl.filtered.len) :
    (0 ≤ pl.active ∧ pl.active < (pl.filtered.len : Int) →
      (CommandPalette.handleKey scrollTo pl CommandPalette.pressUp).active =
        (pl.active - 1 + (pl.filtered.len : Int)) % (pl.filtered.len : Int)) ∧
    (pl.active = -1 →
      (CommandPalette.handleKey scrollTo pl CommandPalette.pressUp).active =
        (pl.filtered.len : Int) - 1) ∧
    (CommandPalette.handleKey scrollTo pl CommandPalette.pressUp).filtered = pl.filtered := by
  refine ⟨?_, ?_, (CommandPalette.handleKey_cases scrollTo pl _).1⟩
  · rintro ⟨h1, h2⟩
    rw [CommandPalette.handleKey_pressUp]
    unfold CommandPalette.activeAfterUp
    by_cases hneg : pl.active - 1 < 0
    · have h0 : pl.active = 0 := by omega
      rw [if_pos hneg, h0]
      exact (Int.emod_eq_of_lt (by omega) (by omega)).symm
    · rw [if_neg hneg]
      have hsum : pl.active - 1 + (pl.filtered.len : Int) =
          pl.active - 1 + (pl.filtered.len : Int) * 1 := by omega
      rw [hsum, Int.add_mul_emod_self_left]
      exact (Int.emod_eq_of_lt (by omega) (by omega)).symm
  · intro h
    rw [CommandPalette.handleKey_pressUp]
    unfold CommandPalette.activeAfterUp
    have hneg : pl.active - 1 < 0 := by omega
    rw [if_pos hneg]

/-- Witness of the amended C7: the scenario palette, with its three rows. -/
theorem CommandPalette.handleKey_up_witness :
    0 < scenarioPalette.filtered.len ∧
    ((0 ≤ scenarioPalette.active ∧ scenarioPalette.active < (scenarioPalette.filtered.len : Int) →
      (CommandPalette.handleKey scrollFirst scenarioPalette CommandPalette.pressUp).active =
        (scenarioPalette.active - 1 + (scenarioPalette.filtered.len : Int)) %
          (scenarioPalette.filtered.len : Int)) ∧
    (scenarioPalette.active = -1 →
      (CommandPalette.handleKey scrollFirst scenarioPalette CommandPalette.pressUp).active =
        (scenarioPalette.filtered.len : Int) - 1) ∧
    (CommandPalette.handleKey scrollFirst scenarioPalette CommandPalette.pressUp).filtered =
      scenarioPalette.filtered) :=
  ⟨by decide, CommandPalette.handleKey_up scrollFirst scenarioPalette (by decide)⟩

/-- C8: with active a valid index i (so for every len(filtered) > 1, and for
len(filtered) = 1 as well), Up then Down leaves active = i, and Down then Up
leaves active = i; filtered is unchanged throughout. -/
theorem CommandPalette.handleKey_up_down {A : Type}
    (scrollTo : ListPosition → Int → ListPosition) (pl : CommandPalette A)
    (hact : 0 ≤ pl.active ∧ pl.active < (pl.filtered.len : Int)) :
    (CommandPalette.handleKey scrollTo
      (CommandPalette.handleKey scrollTo pl CommandPalette.pressUp)
      CommandPalette.pressDown).active = pl.active ∧
    (CommandPalette.handleKey scrollTo
      (CommandPalette.handleKey scrollTo pl CommandPalette.pressDown)
      CommandPalette.pressUp).active = pl.active ∧
    (CommandPalette.handleKey scrollTo
      (CommandPalette.handleKey scrollTo pl CommandPalette.pressUp)
      CommandPalette.pressDown).filtered = pl.filtered ∧
    (CommandPalette.handleKey scrollTo
      (CommandPalette.handleKey scrollTo pl CommandPalette.pressDown)
      CommandPalette.pressUp).filtered = pl.filtered := by
  obtain ⟨h1, h2⟩ := hact
  have fu := (CommandPalette.handleKey_cases scrollTo pl CommandPalette.pressUp).1
  have fd := (CommandPalette.handleKey_cases scrollTo pl CommandPalette.pressDown).1
  have au := CommandPalette.handleKey_pressUp scrollTo pl
  have ad := CommandPalette.handleKey_pressDown scrollTo pl
  refine ⟨?_, ?_, ?_, ?_⟩
  · rw [CommandPalette.handleKey_pressDown]
    unfold CommandPalette.activeAfterDown
    rw [fu, au]
    unfold CommandPalette.activeAfterUp
    split_ifs <;> omega
  · rw [CommandPalette.handleKey_pressUp]
    unfold CommandPalette.activeAfterUp
    rw [fd, ad]
    unfold CommandPalette.activeAfterDown
    split_ifs <;> omega
  · rw [(CommandPalette.handleKey_cases scrollTo _ CommandPalette.pressDown).1, fu]
  · rw [(CommandPalette.handleKey_cases scrollTo _ CommandPalette.pressUp).1, fd]

/-- Witness of C8: the first row of the scenario palette, where Up wraps. -/
theorem CommandPalette.handleKey_up_down_witness :
    (1 < scenarioPalette.filtered.len ∧
      0 ≤ scenarioPalette.active ∧ scenarioPalette.active < (scenarioPalette.filtered.len : Int)) ∧
    ((CommandPalette.handleKey scrollFirst
      (CommandPalette.handleKey scrollFirst scenarioPalette CommandPalette.pressUp)
      CommandPalette.pressDown).active = scenarioPalette.active ∧
    (CommandPalette.handleKey scrollFirst
      (CommandPalette.handleKey scrollFirst scenarioPalette CommandPalette.pressDown)
      CommandPalette.pressUp).active = scenarioPalette.active ∧
    (CommandPalette.handleKey scrollFirst
      (CommandPalette.handleKey scrollFirst scenarioPalette CommandPalette.pressUp)
      CommandPalette.pressDown).filtered = scenarioPalette.filtered ∧
    (CommandPalette.handleKey scrollFirst
      (CommandPalette.handleKey scrollFirst scenarioPalette CommandPalette.pressDown)
      CommandPalette.pressUp).filtered = scenarioPalette.filtered) :=
  ⟨⟨by decide, by decide, by decide⟩,
    CommandPalette.handleKey_up_down scrollFirst scenarioPalette ⟨by decide, by decide⟩⟩

/-- C9: in a reachable state whose provider answers At on its range, a submit
event with active < 0 or active >= len(filtered) emits nothing and does not
close the modal; otherwise filtered[active] is an index idx in [0, cmds.Len()),
cmds.At(idx) is a command c, and exactly the action c.Link() is emitted and the
modal closed. The palette itself is left as it was. -/
theorem CommandPalette.submit_spec {A : Type} (grow : Nat → Nat)
    (scrollTo : ListPosition → Int → ListPosition) (b : Bool) (pl : CommandPalette A)
    (calls : List (WindowCall A)) (hr : CommandPalette.Reach grow scrollTo b pl)
    (hwf : ∀ cmds, pl.cmds = some cmds → cmds.WellFormed) :
    ((pl.active < 0 ∨ pl.active ≥ (pl.filtered.len : Int)) →
      CommandPalette.handleEditorEvent grow pl calls EditorEvent.SubmitEvent =
        some (pl, calls)) ∧
    (¬ (pl.active < 0 ∨ pl.active ≥ (pl.filtered.len : Int)) →
      ∃ cmds idx c, pl.cmds = some cmds ∧ pl.filtered.get pl.active = some idx ∧
        0 ≤ idx ∧ idx < (cmds.Len : Int) ∧ cmds.At idx = some c ∧
        CommandPalette.handleEditorEvent grow pl calls EditorEvent.SubmitEvent =
          some (pl, calls ++ [WindowCall.EmitAction c.Link, WindowCall.CloseModal])) := by
  constructor
  · intro h
    simp [CommandPalette.handleEditorEvent, h]
  · intro h
    have h1 : 0 ≤ pl.active := by omega
    have h2 : pl.active < (pl.filtered.len : Int) := by omega
    obtain ⟨k, hk⟩ := Int.eq_ofNat_of_zero_le h1
    have hk1 : k < pl.filtered.len := by omega
    have hk2 : k < pl.filtered.toList.length := by
      rw [IntSlice.toList_length]; exact hk1
    have hget : pl.filtered.get pl.active = some (pl.filtered.toList[k]) := by
      rw [hk, IntSlice.get_eq_getElem? _ k hk1, List.getElem?_eq_getElem hk2]
    obtain ⟨cmds, hc, h3, h4⟩ :=
      (CommandPalette.reach_invariant grow scrollTo b pl hr).2.2 _ (List.getElem_mem hk2)
    obtain ⟨j, hj⟩ := Int.eq_ofNat_of_zero_le h3
    have hj1 : j < cmds.Len := by omega
    obtain ⟨c, hcj⟩ := Option.isSome_iff_exists.1 (hwf cmds hc j hj1)
    rw [← hj] at hcj
    refine ⟨cmds, _, c, hc, hget, h3, h4, hcj, ?_⟩
    simp [CommandPalette.handleEditorEvent, h, hget, hc, hcj]

/-- Witness of C9: submit on the scenario palette, active on its first row. -/
theorem CommandPalette.submit_spec_witness :
    (CommandPalette.Reach id scrollFirst false scenarioPalette ∧
      ∀ cmds, scenarioPalette.cmds = some cmds → cmds.WellFormed) ∧
    (((scenarioPalette.active < 0 ∨
        scenarioPalette.active ≥ (scenarioPalette.filtered.len : Int)) →
      CommandPalette.handleEditorEvent id scenarioPalette [] EditorEvent.SubmitEvent =
        some (scenarioPalette, [])) ∧
    (¬ (scenarioPalette.active < 0 ∨
        scenarioPalette.active ≥ (scenarioPalette.filtered.len : Int)) →
      ∃ cmds idx c, scenarioPalette.cmds = some cmds ∧
        scenarioPalette.filtered.get scenarioPalette.active = some idx ∧
        0 ≤ idx ∧ idx < (cmds.Len : Int) ∧ cmds.At idx = some c ∧
        CommandPalette.handleEditorEvent id scenarioPalette [] EditorEvent.SubmitEvent =
          some (scenarioPalette,
            [] ++ [WindowCall.EmitAction c.Link, WindowCall.CloseModal]))) :=
  ⟨⟨reach_scenarioPalette, fun cmds h => by
      cases h
      exact CommandSlice.wellFormed _⟩,
    CommandPalette.submit_spec id scrollFirst false scenarioPalette [] reach_scenarioPalette
      (fun cmds h => by
        cases h
        exact CommandSlice.wellFormed _)⟩

/-- C10, as stated, fails when the new filtered list is empty: in the scenario
(three commands, active = 0, query changed to "zzz") the re-filtered list is
empty and the clamp leaves active = 0, not min(active, len(filtered) - 1) = -1. -/
theorem CommandPalette.clamp_counterexample :
    CommandPalette.filter id { scenarioPalette with editorText := "zzz".toList } "zzz".toList =
      some emptiedPalette ∧
    emptiedPalette.filtered.toList = [] ∧
    (CommandPalette.clampActive emptiedPalette).active = 0 ∧
    min scenarioPalette.active ((emptiedPalette.filtered.len : Int) - 1) = -1 ∧
    (CommandPalette.clampActive emptiedPalette).active ≠
      min scenarioPalette.active ((emptiedPalette.filtered.len : Int) - 1) :=
  ⟨rfl, rfl, by decide, by decide, by decide⟩

/-- C10, amended: after the query changes and the palette re-filters, the clamp
sets active to min(active, len(filtered) - 1) whenever the new filtered list is
not empty; when it is empty the clamp sets a non-negative active to 0 and leaves
a negative one as it is (in the scenario active stays 0). The clamp changes
nothing but active. -/
theorem CommandPalette.clamp_after_filter {A : Type} (grow : Nat → Nat)
    (pl pl1 : CommandPalette A) (q : GoString)
    (h : CommandPalette.filter grow pl q = some pl1) :
    (0 < pl1.filtered.len →
      (CommandPalette.clampActive pl1).active =
        min pl.active ((pl1.filtered.len : Int) - 1)) ∧
    (pl1.filtered.len = 0 →
      (CommandPalette.clampActive pl1).active = if 0 ≤ pl.active then 0 else pl.active) ∧
    CommandPalette.clampActive pl1 = { pl1 with active := (CommandPalette.clampActive pl1).active } := by
  have hact := (CommandPalette.filter_inRange grow pl pl1 q h).2
  have hcl := CommandPalette.clampActive_active pl1
  refine ⟨?_, ?_, ?_⟩
  · intro hlen
    rw [hcl, hact]
    split_ifs <;> omega
  · intro hlen
    rw [hcl, hact]
    split_ifs <;> omega
  · unfold CommandPalette.clampActive
    split_ifs <;> rfl

/-- Witness of the amended C10: the scenario, query changed to "zzz". -/
theorem CommandPalette.clamp_after_filter_witness :
    CommandPalette.filter id { scenarioPalette with editorText := "zzz".toList } "zzz".toList =
      some emptiedPalette ∧
    ((0 < emptiedPalette.filtered.len →
      (CommandPalette.clampActive emptiedPalette).active =
        min ({ scenarioPalette with editorText := "zzz".toList } : CommandPalette Unit).active
          ((emptiedPalette.filtered.len : Int) - 1)) ∧
    (emptiedPalette.filtered.len = 0 →
      (CommandPalette.clampActive emptiedPalette).active =
        if 0 ≤ ({ scenarioPalette with editorText := "zzz".toList } : CommandPalette Unit).active
        then 0
        else ({ scenarioPalette with editorText := "zzz".toList } : CommandPalette Unit).active) ∧
    CommandPalette.clampActive emptiedPalette =
      { emptiedPalette with active := (CommandPalette.clampActive emptiedPalette).active }) :=
  ⟨rfl, CommandPalette.clamp_after_filter id
    { scenarioPalette with editorText := "zzz".toList } emptiedPalette "zzz".toList rfl⟩

/-- C11: for every machine whose spans all refer to EvProcStart or EvGoSysBlock
events and every trace duration D = tr.End() (an int64), Layout returns, and its
durations satisfy procD + syscallD + inactiveD == D exactly, in Go's wrapping
int64 arithmetic; each of the three is an int64. -/
theorem MachineTooltip.durations_add_up {Proc Gor : Type} (m : Machine) (tr : Trace Proc Gor)
    (h : MachineSpansTyped m tr) (hD : -2 ^ 63 ≤ tr.End ∧ tr.End < 2 ^ 63) :
    ∃ st, MachineTooltip.Layout m tr = some st ∧
      wrapInt64 (wrapInt64 (st.procD + st.syscallD) + st.inactiveD) = tr.End ∧
      st.procD = wrapInt64 st.procD ∧ st.syscallD = wrapInt64 st.syscallD ∧
      st.inactiveD = wrapInt64 st.inactiveD := by
  refine ⟨_, MachineTooltip.layout_spec m tr h, ?_, ?_, ?_, ?_⟩
  · dsimp only
    rw [wrapInt64_total, wrapInt64_of_range tr.End hD.1 hD.2]
  · dsimp only
    unfold wrapInt64
    omega
  · dsimp only
    unfold wrapInt64
    omega
  · dsimp only
    unfold wrapInt64
    omega

/-- Witness of C11: the scenario machine in the scenario trace. -/
theorem MachineTooltip.durations_add_up_witness :
    (MachineSpansTyped scenarioMachine scenarioTrace ∧
      (-2 ^ 63 ≤ scenarioTrace.End ∧ scenarioTrace.End < 2 ^ 63)) ∧
    ∃ st, MachineTooltip.Layout scenarioMachine scenarioTrace = some st ∧
      wrapInt64 (wrapInt64 (st.procD + st.syscallD) + st.inactiveD) = scenarioTrace.End ∧
      st.procD = wrapInt64 st.procD ∧ st.syscallD = wrapInt64 st.syscallD ∧
      st.inactiveD = wrapInt64 st.inactiveD :=
  ⟨⟨by decide, by decide⟩,
    MachineTooltip.durations_add_up scenarioMachine scenarioTrace (by decide) (by decide)⟩

/-- C12: Layout computes procD as the sum of Duration() over exactly the spans
whose event type is EvProcStart, syscallD as the sum over exactly those whose
event type is EvGoSysBlock, inactive as D minus both sums (all in int64
arithmetic), and each percentage as float32(duration) / float32(D) * 100. -/
theorem MachineTooltip.statistics_spec {Proc Gor : Type} (m : Machine) (tr : Trace Proc Gor)
    (h : MachineSpansTyped m tr) :
    ∃ st, MachineTooltip.Layout m tr = some st ∧
      st.procD = wrapInt64 (totalDuration (m.Spans.filter tr.isProcStart)) ∧
      st.syscallD = wrapInt64 (totalDuration (m.Spans.filter tr.isGoSysBlock)) ∧
      st.inactiveD = wrapInt64 (wrapInt64 (tr.End - st.procD) - st.syscallD) ∧
      st.procPct = percent st.procD tr.End ∧
      st.syscallPct = percent st.syscallD tr.End ∧
      st.inactivePct = percent st.inactiveD tr.End :=
  ⟨_, MachineTooltip.layout_spec m tr h, rfl, rfl, rfl, rfl, rfl, rfl⟩

/-- Witness of C12: spans (0,10,running), (10,15,blocked in syscall),
(15,20,running) with D = 20 give running 15 (75%), blocked 5 (25%) and
inactive 0 (0%). -/
theorem MachineTooltip.statistics_spec_witness :
    MachineSpansTyped scenarioMachine scenarioTrace ∧
    (∃ st, MachineTooltip.Layout scenarioMachine scenarioTrace = some st ∧
      st.procD = wrapInt64 (totalDuration (scenarioMachine.Spans.filter
        scenarioTrace.isProcStart)) ∧
      st.syscallD = wrapInt64 (totalDuration (scenarioMachine.Spans.filter
        scenarioTrace.isGoSysBlock)) ∧
      st.inactiveD = wrapInt64 (wrapInt64 (scenarioTrace.End - st.procD) - st.syscallD) ∧
      st.procPct = percent st.procD scenarioTrace.End ∧
      st.syscallPct = percent st.syscallD scenarioTrace.End ∧
      st.inactivePct = percent st.inactiveD scenarioTrace.End) ∧
    MachineTooltip.Layout scenarioMachine scenarioTrace =
      some ⟨0, 3, 15, F32.ofInt 75, 5, F32.ofInt 25, 0, F32.ofInt 0⟩ :=
  ⟨by decide, MachineTooltip.statistics_spec scenarioMachine scenarioTrace (by decide), rfl⟩

/-- C13, as stated, fails: for the empty span set in a trace of duration 0 the
three percentages are NaN, not 0. -/
theorem MachineTooltip.zero_duration_counterexample :
    instantTrace.End = 0 ∧
    MachineTooltip.Layout (machineOf []) instantTrace =
      some ⟨0, 0, 0, F32.nan, 0, F32.nan, 0, F32.nan⟩ ∧
    F32.nan ≠ F32.ofInt 0 := by
  decide

/-- C13, amended: when the trace's total duration D is 0, Layout has no special
case: it returns (for spans that all refer to EvProcStart or EvGoSysBlock
events) and each percentage is the float32 quotient by zero times 100, which is
NaN when the duration is 0 and the infinity of the duration's sign otherwise;
no percentage is a finite number. -/
theorem MachineTooltip.zero_duration {Proc Gor : Type} (m : Machine) (tr : Trace Proc Gor)
    (h : MachineSpansTyped m tr) (hD : tr.End = 0) :
    ∃ st, MachineTooltip.Layout m tr = some st ∧
      st.procPct = (if st.procD = 0 then F32.nan else F32.inf (decide (st.procD < 0))) ∧
      st.syscallPct =
        (if st.syscallD = 0 then F32.nan else F32.inf (decide (st.syscallD < 0))) ∧
      st.inactivePct =
        (if st.inactiveD = 0 then F32.nan else F32.inf (decide (st.inactiveD < 0))) ∧
      (∀ mant ex : Int, st.procPct ≠ F32.finite mant ex ∧ st.syscallPct ≠ F32.finite mant ex ∧
        st.inactivePct ≠ F32.finite mant ex) := by
  have h5 : ∀ part : Int, percent part tr.End =
      if part = 0 then F32.nan else F32.inf (decide (part < 0)) := by
    intro part
    rw [hD]
    exact F32.percent_of_zero part
  refine ⟨_, MachineTooltip.layout_spec m tr h, h5 _, h5 _, h5 _, ?_⟩
  intro mant ex
  dsimp only
  rw [h5, h5, h5]
  refine ⟨?_, ?_, ?_⟩ <;> split_ifs <;> simp

/-- Witness of the amended C13: the scenario machine in a trace of duration 0,
where the running and blocked times are positive and the inactive time is
negative. -/
theorem MachineTooltip.zero_duration_witness :
    (MachineSpansTyped scenarioMachine instantTrace ∧
      instantTrace.End = 0) ∧
    (∃ st, MachineTooltip.Layout scenarioMachine instantTrace = some st ∧
      st.procPct = (if st.procD = 0 then F32.nan else F32.inf (decide (st.procD < 0))) ∧
      st.syscallPct =
        (if st.syscallD = 0 then F32.nan else F32.inf (decide (st.syscallD < 0))) ∧
      st.inactivePct =
        (if st.inactiveD = 0 then F32.nan else F32.inf (decide (st.inactiveD < 0))) ∧
      (∀ mant ex : Int, st.procPct ≠ F32.finite mant ex ∧ st.syscallPct ≠ F32.finite mant ex ∧
        st.inactivePct ≠ F32.finite mant ex)) ∧
    MachineTooltip.Layout scenarioMachine instantTrace =
      some ⟨0, 3, 15, F32.inf false, 5, F32.inf false, -20, F32.inf true⟩ :=
  ⟨⟨by decide, rfl⟩,
    MachineTooltip.zero_duration scenarioMachine instantTrace (by decide) rfl,
    rfl⟩

/-- C14: for every span view with Len() != 1, whatever the states of its
spans, the machine-track consumers take the aggregate branch and return:
machineTrack0SpanLabel and machineTrack1SpanLabel return out unchanged, the
label of machineTrack0SpanTooltip is "<Len> spans" and a newline followed by
the spans' duration text, machineTrack0SpanContextMenu returns exactly the zoom
and open-spans items and machineTrack1SpanContextMenu exactly the zoom item. -/
theorem machineTrack_aggregate {Proc Gor : Type} (sprintD : Int → GoString)
    (spansDurationForTooltip : List Span → GoString) (tr : Trace Proc Gor)
    (spans : List Span) (out : List GoString) (h : spans.length ≠ 1) :
    machineTrack0SpanLabel spans tr out = some out ∧
    machineTrack1SpanLabel spans tr out = some out ∧
    machineTrack0SpanTooltip sprintD spansDurationForTooltip tr spans =
      some (sprintD (spans.length : Int) ++ " spans\n".toList ++
        spansDurationForTooltip spans) ∧
    machineTrack0SpanContextMenu sprintD spans tr =
      some [MenuItem.zoom spans, MenuItem.openSpans spans] ∧
    machineTrack1SpanContextMenu sprintD spans tr = some [MenuItem.zoom spans] := by
  refine ⟨?_, ?_, ?_, ?_, ?_⟩
  · simp [machineTrack0SpanLabel, h]
  · simp [machineTrack1SpanLabel, h]
  · simp [machineTrack0SpanTooltip, h]
  · simp [machineTrack0SpanContextMenu, h]
  · simp [machineTrack1SpanContextMenu, h]

/-- Witness of C14: a view of two spans in states that no single-span branch
accepts, and the empty view. -/
theorem machineTrack_aggregate_witness :
    ([(⟨0, 1, 7, SchedulingState.other 9⟩ : Span), ⟨1, 2, 8, SchedulingState.other 9⟩].length ≠ 1 ∧
      ([] : List Span).length ≠ 1) ∧
    (machineTrack0SpanLabel [⟨0, 1, 7, SchedulingState.other 9⟩, ⟨1, 2, 8, SchedulingState.other 9⟩]
        scenarioTrace ["x".toList] = some ["x".toList] ∧
      machineTrack1SpanLabel [⟨0, 1, 7, SchedulingState.other 9⟩, ⟨1, 2, 8, SchedulingState.other 9⟩]
        scenarioTrace ["x".toList] = some ["x".toList] ∧
      machineTrack0SpanTooltip (fun _ => "2".toList) (fun _ => "1ns".toList) scenarioTrace
        [⟨0, 1, 7, SchedulingState.other 9⟩, ⟨1, 2, 8, SchedulingState.other 9⟩] =
        some ((fun _ => "2".toList)
            (([(⟨0, 1, 7, SchedulingState.other 9⟩ : Span),
              ⟨1, 2, 8, SchedulingState.other 9⟩].length : Nat) : Int) ++
          " spans\n".toList ++
          (fun _ => "1ns".toList)
            [(⟨0, 1, 7, SchedulingState.other 9⟩ : Span), ⟨1, 2, 8, SchedulingState.other 9⟩]) ∧
      machineTrack0SpanContextMenu (fun _ => "2".toList)
        [⟨0, 1, 7, SchedulingState.other 9⟩, ⟨1, 2, 8, SchedulingState.other 9⟩] scenarioTrace =
        some [MenuItem.zoom [⟨0, 1, 7, SchedulingState.other 9⟩, ⟨1, 2, 8, SchedulingState.other 9⟩],
          MenuItem.openSpans
            [⟨0, 1, 7, SchedulingState.other 9⟩, ⟨1, 2, 8, SchedulingState.other 9⟩]] ∧
      machineTrack1SpanContextMenu (fun _ => "2".toList)
        [⟨0, 1, 7, SchedulingState.other 9⟩, ⟨1, 2, 8, SchedulingState.other 9⟩] scenarioTrace =
        some [MenuItem.zoom
          [⟨0, 1, 7, SchedulingState.other 9⟩, ⟨1, 2, 8, SchedulingState.other 9⟩]]) ∧
    machineTrack0SpanLabel [] scenarioTrace ["x".toList] = some ["x".toList] :=
  ⟨⟨by decide, by decide⟩,
    machineTrack_aggregate (fun _ => "2".toList) (fun _ => "1ns".toList) scenarioTrace
      [⟨0, 1, 7, SchedulingState.other 9⟩, ⟨1, 2, 8, SchedulingState.other 9⟩] ["x".toList]
      (by decide),
    rfl⟩

/-- C15: for a single-span view whose event and processor the trace knows,
machineTrack0SpanLabel panics if and only if the span's state is neither
StateRunningP nor StateBlockedSyscall; for StateBlockedSyscall it returns out
with "syscall" appended, for StateRunningP it returns out with the processor's
span labels appended, and every result begins with out. Likewise
machineTrack1SpanContextMenu panics if and only if the state is not
StateRunningG. -/
theorem machineTrack_single {Proc Gor : Type} (sprintD : Int → GoString) (tr : Trace Proc Gor)
    (span : Span) (out : List GoString) (ev : Event) (p : Proc)
    (hev : tr.Event span.Event = some ev) (hp : tr.P ev.P = some p) :
    (machineTrack0SpanLabel [span] tr out = none ↔
      (span.State ≠ SchedulingState.StateRunningP ∧
        span.State ≠ SchedulingState.StateBlockedSyscall)) ∧
    (span.State = SchedulingState.StateBlockedSyscall →
      machineTrack0SpanLabel [span] tr out = some (out ++ ["syscall".toList])) ∧
    (span.State = SchedulingState.StateRunningP →
      machineTrack0SpanLabel [span] tr out = some (out ++ tr.processorSpanLabels p)) ∧
    (∀ r, machineTrack0SpanLabel [span] tr out = some r → ∃ added, r = out ++ added) ∧
    (machineTrack1SpanContextMenu sprintD [span] tr = none ↔
      span.State ≠ SchedulingState.StateRunningG) := by
  have hlabel : machineTrack0SpanLabel [span] tr out =
      match span.State with
      | SchedulingState.StateRunningP => some (out ++ tr.processorSpanLabels p)
      | SchedulingState.StateBlockedSyscall => some (out ++ ["syscall".toList])
      | _ => none := by
    simp only [machineTrack0SpanLabel, List.length_singleton, ne_eq, not_true_eq_false,
      if_false, List.head?_cons]
    cases span.State <;> simp [hev, hp]
  have hmenu : machineTrack1SpanContextMenu sprintD [span] tr =
      match span.State with
      | SchedulingState.StateRunningG =>
        some ([MenuItem.zoom [span]] ++
          [MenuItem.scrollToGoroutine ("Scroll to goroutine ".toList ++ sprintD ev.G) ev.G])
      | _ => none := by
    simp only [machineTrack1SpanContextMenu, List.length_singleton, if_true, List.head?_cons]
    cases span.State <;> simp [hev]
  rw [hlabel, hmenu]
  refine ⟨?_, ?_, ?_, ?_, ?_⟩
  · cases span.State <;> simp
  · intro h
    rw [h]
  · intro h
    rw [h]
  · intro r hr
    cases hs : span.State <;> rw [hs] at hr <;> simp at hr
    · exact ⟨_, hr.symm⟩
    · exact ⟨_, hr.symm⟩
  · cases span.State <;> simp

/-- Witness of C15: the first span of the scenario machine, which runs a
processor of the scenario trace. -/
theorem machineTrack_single_witness :
    (scenarioTrace.Event (⟨0, 10, 0, SchedulingState.StateRunningP⟩ : Span).Event =
        some ⟨EventType.EvProcStart, 0, 0⟩ ∧
      scenarioTrace.P (⟨EventType.EvProcStart, 0, 0⟩ : Event).P = some ()) ∧
    ((machineTrack0SpanLabel [⟨0, 10, 0, SchedulingState.StateRunningP⟩] scenarioTrace
        ["x".toList] = none ↔
      ((⟨0, 10, 0, SchedulingState.StateRunningP⟩ : Span).State ≠
          SchedulingState.StateRunningP ∧
        (⟨0, 10, 0, SchedulingState.StateRunningP⟩ : Span).State ≠
          SchedulingState.StateBlockedSyscall)) ∧
    ((⟨0, 10, 0, SchedulingState.StateRunningP⟩ : Span).State =
        SchedulingState.StateBlockedSyscall →
      machineTrack0SpanLabel [⟨0, 10, 0, SchedulingState.StateRunningP⟩] scenarioTrace
        ["x".toList] = some (["x".toList] ++ ["syscall".toList])) ∧
    ((⟨0, 10, 0, SchedulingState.StateRunningP⟩ : Span).State =
        SchedulingState.StateRunningP →
      machineTrack0SpanLabel [⟨0, 10, 0, SchedulingState.StateRunningP⟩] scenarioTrace
        ["x".toList] = some (["x".toList] ++ scenarioTrace.processorSpanLabels ())) ∧
    (∀ r, machineTrack0SpanLabel [⟨0, 10, 0, SchedulingState.StateRunningP⟩] scenarioTrace
        ["x".toList] = some r → ∃ added, r = ["x".toList] ++ added) ∧
    (machineTrack1SpanContextMenu (fun _ => "0".toList)
        [⟨0, 10, 0, SchedulingState.StateRunningP⟩] scenarioTrace = none ↔
      (⟨0, 10, 0, SchedulingState.StateRunningP⟩ : Span).State ≠
        SchedulingState.StateRunningG)) :=
  ⟨⟨rfl, rfl⟩,
    machineTrack_single (fun _ => "0".toList) scenarioTrace
      ⟨0, 10, 0, SchedulingState.StateRunningP⟩ ["x".toList] ⟨EventType.EvProcStart, 0, 0⟩ ()
      rfl rfl⟩

/-- C16, as stated, fails when machine timelines are not supported: with the
constant supportMachineTimelines false, NewMachineTimeline panics on the guard
in its first statement, also for a machine with non-empty Spans and non-empty
Goroutines. -/
theorem NewMachineTimeline_counterexample :
    busyMachine.Spans ≠ [] ∧ busyMachine.Goroutines ≠ [] ∧
    NewMachineTimeline false (fun _ => "0".toList) blankTrack busyMachine = none :=
  ⟨by decide, by decide, rfl⟩

/-- C16, amended: for every machine m with non-empty Spans and non-empty
Goroutines, when the constant supportMachineTimelines is true
NewMachineTimeline returns a timeline labelled "Machine <m.ID>" with exactly two
tracks, where the first track starts at the Start of the first span of m.Spans,
ends at the End of its last span and holds m.Spans unchanged, and the second
does the same with m.Goroutines; when the constant is false NewMachineTimeline
panics. -/
theorem NewMachineTimeline_spec (supportMachineTimelines : Bool) (sprintD : Int → GoString)
    (NewTrack : TrackKind → Track) (m : Machine) (hs : m.Spans ≠ [])
    (hg : m.Goroutines ≠ []) :
    (supportMachineTimelines = true →
      ∃ tl t0 t1, NewMachineTimeline supportMachineTimelines sprintD NewTrack m = some tl ∧
        tl.label = "Machine ".toList ++ sprintD m.ID ∧
        tl.tracks = [t0, t1] ∧
        t0.Start = (m.Spans.head hs).Start ∧ t0.End = (m.Spans.getLast hs).End ∧
        t1.Start = (m.Goroutines.head hg).Start ∧ t1.End = (m.Goroutines.getLast hg).End ∧
        t0.spans.map SimpleItems.items = some m.Spans ∧
        t1.spans.map SimpleItems.items = some m.Goroutines) ∧
    (supportMachineTimelines = false →
      NewMachineTimeline supportMachineTimelines sprintD NewTrack m = none) := by
  constructor
  · intro hflag
    subst hflag
    simp only [NewMachineTimeline, Bool.not_true, Bool.false_eq_true, if_false,
      List.head?_eq_head hs, List.getLast?_eq_getLast _ hs, List.head?_eq_head hg,
      List.getLast?_eq_getLast _ hg, Option.some_bind]
    exact ⟨_, _, _, rfl, rfl, rfl, rfl, rfl, rfl, rfl, rfl, rfl⟩
  · intro hflag
    subst hflag
    rfl

/-- Witness of the amended C16: the busy machine, whose spans run from 0 to 20
and whose goroutine span runs from 2 to 18, with machine timelines supported. -/
theorem NewMachineTimeline_spec_witness :
    (busyMachine.Spans ≠ [] ∧ busyMachine.Goroutines ≠ []) ∧
    ((true = true →
      ∃ tl t0 t1, NewMachineTimeline true (fun _ => "0".toList) blankTrack busyMachine =
          some tl ∧
        tl.label = "Machine 0".toList ∧ tl.tracks = [t0, t1] ∧
        t0.Start = 0 ∧ t0.End = 20 ∧ t1.Start = 2 ∧ t1.End = 18 ∧
        t0.spans.map SimpleItems.items = some busyMachine.Spans ∧
        t1.spans.map SimpleItems.items = some busyMachine.Goroutines) ∧
    (true = false →
      NewMachineTimeline true (fun _ => "0".toList) blankTrack busyMachine = none)) :=
  ⟨⟨by decide, by decide⟩,
    NewMachineTimeline_spec true (fun _ => "0".toList) blankTrack busyMachine (by decide)
      (by decide)⟩

/-- C17, as stated, fails in its last part: after Set(data1) immediately
followed by Set(data2), the Future of data1 has been dropped with its cancel
signal not raised. -/
theorem InteractiveHistogram.supersession_counterexample :
    (InteractiveHistogram.Set (fun data : Nat => data)
      (InteractiveHistogram.Set (fun data : Nat => data) InteractiveHistogram.fresh 1) 2).dropped =
      [⟨1, false, false⟩] ∧
    ∀ ft ∈ (InteractiveHistogram.Set (fun data : Nat => data)
      (InteractiveHistogram.Set (fun data : Nat => data) InteractiveHistogram.fresh 1) 2).dropped,
      ft.cancelRequested = false := by
  decide

/-- C17, amended: after Set(data1) immediately followed by Set(data2), however
the background computations proceed, every later poll hist.widget.Result()
yields either not-ready or the histogram computed from data2, never another
one; the superseded computation is not signalled to cancel: its Future is only
dropped, with the cancel signal not raised. -/
theorem InteractiveHistogram.supersession {D H : Type} (newHistogram : D → H)
    (hist later : InteractiveHistogram H) (data1 data2 : D)
    (h : InteractiveHistogram.Later
      (InteractiveHistogram.Set newHistogram
        (InteractiveHistogram.Set newHistogram hist data1) data2) later) :
    (later.poll = some none ∨ later.poll = some (some (newHistogram data2))) ∧
    ∃ ft ∈ later.dropped, ft.result = newHistogram data1 ∧ ft.cancelRequested = false := by
  obtain ⟨⟨ft, h1, h2, h3⟩, hd⟩ := InteractiveHistogram.superseded_later _ _ _ _
    (InteractiveHistogram.superseded_set_set newHistogram hist data1 data2) h
  refine ⟨?_, hd⟩
  unfold InteractiveHistogram.poll Future.Result
  rw [h1, Option.map_some']
  by_cases hr : ft.ready = true
  · right
    rw [if_pos ⟨hr, h3⟩, h2]
  · left
    rw [if_neg (fun hc => hr hc.1)]

/-- Witness of the amended C17: both computations have finished. -/
theorem InteractiveHistogram.supersession_witness :
    InteractiveHistogram.Later
      (InteractiveHistogram.Set (fun data : Nat => data)
        (InteractiveHistogram.Set (fun data : Nat => data) InteractiveHistogram.fresh 1) 2)
      ⟨some ⟨2, true, false⟩, [⟨1, true, false⟩]⟩ ∧
    ((InteractiveHistogram.poll (⟨some ⟨2, true, false⟩, [⟨1, true, false⟩]⟩ :
          InteractiveHistogram Nat) = some none ∨
        InteractiveHistogram.poll (⟨some ⟨2, true, false⟩, [⟨1, true, false⟩]⟩ :
          InteractiveHistogram Nat) = some (some ((fun data : Nat => data) 2))) ∧
      ∃ ft ∈ (⟨some ⟨2, true, false⟩, [⟨1, true, false⟩]⟩ : InteractiveHistogram Nat).dropped,
        ft.result = (fun data : Nat => data) 1 ∧ ft.cancelRequested = false) :=
  ⟨InteractiveHistogram.Later.step
      (InteractiveHistogram.Later.step (InteractiveHistogram.Later.now _)
        (InteractiveHistogram.Finishes.current _ ⟨2, false, false⟩ rfl))
      (InteractiveHistogram.Finishes.dropped _ [] [] ⟨1, false, false⟩ rfl),
    InteractiveHistogram.supersession (fun data : Nat => data) InteractiveHistogram.fresh _ 1 2
      (InteractiveHistogram.Later.step
        (InteractiveHistogram.Later.step (InteractiveHistogram.Later.now _)
          (InteractiveHistogram.Finishes.current _ ⟨2, false, false⟩ rfl))
        (InteractiveHistogram.Finishes.dropped _ [] [] ⟨1, false, false⟩ rfl))⟩

/-- C18: for every MultiCommandProvider, Len() is the sum of the providers'
Len(); and when the providers answer At on their ranges, for every idx with
0 <= idx < Len() the loop of At ends at the one provider k that contains idx
(the first k providers hold at most idx commands, the first k+1 more than idx)
and At(idx) returns providers[k].At(idx minus the commands of the first k
providers), which is the element at position idx of the concatenation of the
providers' commands; no lookup is out of range. With providers of 1, 0 and 2
commands the empty one is skipped. -/
theorem MultiCommandProvider.At_spec {A : Type} (mcp : MultiCommandProvider A) :
    mcp.Len = (mcp.Providers.map fun p => p.Len).sum ∧
    (∀ idx : Int, (∀ p ∈ mcp.Providers, p.WellFormed) → 0 ≤ idx → idx < (mcp.Len : Int) →
      ∃ (k : Nat) (hk : k < mcp.Providers.length) (c : Command A),
        (offsetOf mcp.Providers k : Int) ≤ idx ∧
        idx < (offsetOf mcp.Providers k : Int) + ((mcp.Providers[k]).Len : Int) ∧
        mcp.At idx = (mcp.Providers[k]).At (idx - (offsetOf mcp.Providers k : Int)) ∧
        mcp.At idx = some c ∧
        (concatCommands mcp.Providers)[idx.toNat]? = some c ∧
        ∀ (j : Nat) (hj : j < mcp.Providers.length),
          (offsetOf mcp.Providers j : Int) ≤ idx →
          idx < (offsetOf mcp.Providers j : Int) + ((mcp.Providers[j]).Len : Int) → j = k) ∧
    (scenarioProviders.Len = 3 ∧
      (scenarioProviders.At 0).map Command.Link = some 0 ∧
      (scenarioProviders.At 1).map Command.Link = some 1 ∧
      (scenarioProviders.At 2).map Command.Link = some 2) := by
  have hlen : mcp.Len = (mcp.Providers.map fun p => p.Len).sum := by
    unfold MultiCommandProvider.Len
    rw [MultiCommandProvider.lenLoop_eq, Nat.zero_add]
  refine ⟨hlen, ?_, rfl, rfl, rfl, rfl⟩
  intro idx hwf h0 h1
  obtain ⟨k, hk, c, h2, h3, h4, h5, h6⟩ :=
    MultiCommandProvider.atLoop_spec mcp.Providers hwf idx h0 (by rw [← hlen]; exact h1)
  refine ⟨k, hk, c, h2, h3, h4, h5, h6, ?_⟩
  intro j hj hj1 hj2
  by_contra hne
  rcases Nat.lt_or_gt_of_ne hne with hlt | hgt
  · have hmono := offsetOf_mono mcp.Providers (j + 1) k (by omega) (by omega)
    rw [offsetOf_succ mcp.Providers j hj] at hmono
    omega
  · have hmono := offsetOf_mono mcp.Providers (k + 1) j (by omega) (by omega)
    rw [offsetOf_succ mcp.Providers k hk] at hmono
    omega

/-- C19: for every text of the number-of-bins editor, NumBins returns n when the
text is a base-10 numeral for an integer n with 1 <= n <= 9999, and the default
100 when it is no such numeral (empty or non-numeric text, zero, a negative
number, a number above 9999); its result is always in [1, 9999]. -/
theorem HistogramSettingsState.NumBins_spec (hss : HistogramSettingsState) :
    (∀ n : Int, DenotesInt hss.numBinsEditorText n → 1 ≤ n → n ≤ 9999 → hss.NumBins = n) ∧
    ((¬ ∃ n : Int, DenotesInt hss.numBinsEditorText n ∧ 1 ≤ n ∧ n ≤ 9999) →
      hss.NumBins = 100) ∧
    (1 ≤ hss.NumBins ∧ hss.NumBins ≤ 9999) ∧
    (HistogramSettingsState.NumBins ⟨"42".toList, false⟩ = 42 ∧
      HistogramSettingsState.NumBins ⟨"+0042".toList, false⟩ = 42 ∧
      HistogramSettingsState.NumBins ⟨"9999".toList, false⟩ = 9999 ∧
      HistogramSettingsState.NumBins ⟨[], false⟩ = 100 ∧
      HistogramSettingsState.NumBins ⟨"abc".toList, false⟩ = 100 ∧
      HistogramSettingsState.NumBins ⟨"12a".toList, false⟩ = 100 ∧
      HistogramSettingsState.NumBins ⟨"0".toList, false⟩ = 100 ∧
      HistogramSettingsState.NumBins ⟨"-5".toList, false⟩ = 100 ∧
      HistogramSettingsState.NumBins ⟨"10000".toList, false⟩ = 100 ∧
      HistogramSettingsState.NumBins ⟨"99999999999999999999".toList, false⟩ = 100) := by
  refine ⟨?_, ?_, ?_, by decide⟩
  · intro n hden h1 h2
    have hparse := strconvParseInt_complete hss.numBinsEditorText n hden (by omega) (by omega)
    unfold HistogramSettingsState.NumBins
    dsimp only
    rw [hparse]
    have hcond : ¬ ((none : Option ParseError) ≠ none ∨ n < 1 ∨ n > 9999) := by
      simp
      omega
    exact if_neg hcond
  · intro hno
    unfold HistogramSettingsState.NumBins
    dsimp only
    by_cases hcond : (strconvParseInt hss.numBinsEditorText 32).2 ≠ none ∨
        (strconvParseInt hss.numBinsEditorText 32).1 < 1 ∨
        (strconvParseInt hss.numBinsEditorText 32).1 > 9999
    · exact if_pos hcond
    · exfalso
      have h1 : (strconvParseInt hss.numBinsEditorText 32).2 = none := by
        by_contra hne
        exact hcond (Or.inl hne)
      have h2 : strconvParseInt hss.numBinsEditorText 32 =
          ((strconvParseInt hss.numBinsEditorText 32).1, none) := by
        rw [← h1]
      exact hno ⟨_, strconvParseInt_sound _ _ h2, by omega, by omega⟩
  · unfold HistogramSettingsState.NumBins
    dsimp only
    split_ifs with hcond
    · exact ⟨by decide, by decide⟩
    · omega

end Gotraceui
